import Mathlib

/-
  Verification of the stream-parsing core of the sql-chatbot repository.

  The embedding below translates, from the TypeScript source:
    - `ContentParser` (src/lib/global-store.ts): chunk parsing, SSE line
      processing, tool input/output handling, interrupt handling, the
      SQL-likeness heuristic and block grouping;
    - `mergeSqlExecutions` (src/components/chatbot.tsx): the caller-side
      execution-ledger merge.

  Modelling conventions:
    - JavaScript strings are Lean `String`s; the JS string operations used by
      the source (trim, split, startsWith, substring, includes, toUpperCase,
      slice) are re-implemented over `List Char` so that every definition is
      executable and kernel-reducible.
    - `JSON.parse` is modelled by an executable JSON reader returning
      `Option Json`; a `none` result corresponds to `JSON.parse` throwing,
      which the source always catches.  JSON numbers are modelled as integers
      (no claim involves a fractional number).
    - `Date` values and generated identifiers are modelled by a logical clock
      field (`clock`) in the parser state; `new Date()` reads and bumps it.
    - TS optional fields are modelled as `Option`; a field that is absent and
      a field explicitly set to `undefined` are both `none`, and object spread
      is modelled as overwriting every field of the record.
-/

set_option maxRecDepth 4000

/-- JSON values as produced by `JSON.parse`.  Numbers are modelled as
integers; no payload in the repository's protocol uses fractions. -/
inductive Json where
  | null : Json
  | bool (b : Bool) : Json
  | num (n : Int) : Json
  | str (s : String) : Json
  | arr (elems : List Json) : Json
  | obj (fields : List (String × Json)) : Json
deriving Repr

/-- Hexadecimal digit test for the JSON `u` escape. -/
def isHexDig (c : Char) : Bool :=
  c.isDigit || ('a' ≤ c ∧ c ≤ 'f') || ('A' ≤ c ∧ c ≤ 'F')

/-- Hexadecimal digit value for the JSON `u` escape. -/
def hexVal (c : Char) : Nat :=
  if c.isDigit then c.toNat - 48
  else if 'a' ≤ c then c.toNat - 87
  else c.toNat - 55

/-- JS whitespace test for the characters that occur in the protocol. -/
def isWsChar (c : Char) : Bool :=
  c = ' ' ∨ c = '\t' ∨ c = '\n' ∨ c = '\r'

/-- Model of `String.prototype.trim`. -/
def jsTrim (s : String) : String :=
  (((s.data.dropWhile isWsChar).reverse.dropWhile isWsChar).reverse).asString

/-- Model of `String.prototype.startsWith`. -/
def jsStartsWith (s p : String) : Bool :=
  p.data.isPrefixOf s.data

/-- Model of `String.prototype.endsWith`. -/
def jsEndsWith (s p : String) : Bool :=
  p.data.isSuffixOf s.data

/-- Model of `String.prototype.substring(n)`. -/
def jsDrop (s : String) (n : Nat) : String :=
  (s.data.drop n).asString

/-- Model of `String.prototype.toUpperCase` (ASCII, as used by the source). -/
def jsToUpper (s : String) : String :=
  (s.data.map Char.toUpper).asString

/-- One-sided containment test on character lists. -/
def listContainsSub (needle : List Char) : List Char → Bool
  | [] => needle.isPrefixOf []
  | c :: rest => needle.isPrefixOf (c :: rest) || listContainsSub needle rest

/-- Model of `String.prototype.includes`. -/
def jsIncludes (s sub : String) : Bool :=
  listContainsSub sub.data s.data

/-- Split a character list at every occurrence of `c` (JS `split`). -/
def splitOnCharList (c : Char) : List Char → List (List Char)
  | [] => [[]]
  | x :: xs =>
    let r := splitOnCharList c xs
    if x = c then [] :: r
    else
      match r with
      | [] => [[x]]
      | h :: t => (x :: h) :: t

/-- Model of `String.prototype.split('\n')`. -/
def splitLines (s : String) : List String :=
  (splitOnCharList '\n' s.data).map List.asString

/-- JSON string body reader: consumes characters until the closing quote,
decoding the JSON escapes.  Returns the decoded string and the remainder. -/
def pStringAux : List Char → List Char → Option (String × List Char)
  | _, [] => none
  | acc, '"' :: r => some (acc.reverse.asString, r)
  | acc, '\\' :: e :: r =>
    match e with
    | '"' => pStringAux ('"' :: acc) r
    | '\\' => pStringAux ('\\' :: acc) r
    | '/' => pStringAux ('/' :: acc) r
    | 'n' => pStringAux ('\n' :: acc) r
    | 't' => pStringAux ('\t' :: acc) r
    | 'r' => pStringAux ('\r' :: acc) r
    | 'b' => pStringAux ('\x08' :: acc) r
    | 'f' => pStringAux ('\x0c' :: acc) r
    | 'u' =>
      match r with
      | a :: b :: c :: d :: rr =>
        match isHexDig a && isHexDig b && isHexDig c && isHexDig d with
        | true =>
          let n := 4096 * hexVal a + 256 * hexVal b + 16 * hexVal c + hexVal d
          pStringAux (Char.ofNat n :: acc) rr
        | false => none
      | _ => none
    | _ => none
  | acc, c :: r =>
    if c.toNat < 32 then none else pStringAux (c :: acc) r

/-- JSON string reader, to be applied after the opening quote. -/
def pString (l : List Char) : Option (String × List Char) :=
  pStringAux [] l

/-- Digit-run reader for the JSON number grammar. -/
def pDigits : List Char → (List Char × List Char)
  | [] => ([], [])
  | c :: r =>
    if c.isDigit then
      let (ds, rest) := pDigits r
      (c :: ds, rest)
  else ([], c :: r)

/-- Turn a list of decimal digits into a natural number. -/
def digitsToNat : Nat → List Char → Nat
  | acc, [] => acc
  | acc, c :: r => digitsToNat (10 * acc + (c.toNat - 48)) r

/-- JSON number reader (integer part only; the protocol uses integers). -/
def pNum (l : List Char) : Option (Json × List Char) :=
  let (neg, l1) := match l with
    | '-' :: r => (true, r)
    | _ => (false, l)
  match pDigits l1 with
  | ([], _) => none
  | (ds, rest) =>
    -- reject leading zeros (JSON grammar) and fractional/exponent forms
    if ds.length > 1 ∧ ds.headD '0' = '0' then none
    else
      match rest with
      | '.' :: _ => none
      | 'e' :: _ => none
      | 'E' :: _ => none
      | _ =>
        let n : Int := Int.ofNat (digitsToNat 0 ds)
        some (.num (if neg then -n else n), rest)

/-- JSON whitespace skipping. -/
def skipWs (l : List Char) : List Char :=
  l.dropWhile isWsChar

mutual

/-- Fuel-indexed JSON value reader; fuel bounds the nesting depth, and the
top-level entry point supplies more fuel than any input can consume. -/
def pVal : Nat → List Char → Option (Json × List Char)
  | 0, _ => none
  | fuel + 1, l =>
    match skipWs l with
    | 'n' :: 'u' :: 'l' :: 'l' :: r => some (.null, r)
    | 't' :: 'r' :: 'u' :: 'e' :: r => some (.bool true, r)
    | 'f' :: 'a' :: 'l' :: 's' :: 'e' :: r => some (.bool false, r)
    | '"' :: r => (pString r).map (fun p => (.str p.1, p.2))
    | '\x7b' :: r =>
      match skipWs r with
      | '\x7d' :: r2 => some (.obj [], r2)
      | r2 => (pMembers fuel r2).map (fun p => (.obj p.1, p.2))
    | '[' :: r =>
      match skipWs r with
      | ']' :: r2 => some (.arr [], r2)
      | r2 => (pElems fuel r2).map (fun p => (.arr p.1, p.2))
    | l' => pNum l'

/-- Object member list reader (after the opening brace and whitespace). -/
def pMembers : Nat → List Char → Option (List (String × Json) × List Char)
  | 0, _ => none
  | fuel + 1, l =>
    match l with
    | '"' :: r =>
      match pString r with
      | none => none
      | some (k, r1) =>
        match skipWs r1 with
        | ':' :: r2 =>
          match pVal fuel r2 with
          | none => none
          | some (v, r3) =>
            match skipWs r3 with
            | ',' :: r4 => (pMembers fuel (skipWs r4)).map (fun p => ((k, v) :: p.1, p.2))
            | '\x7d' :: r4 => some ([(k, v)], r4)
            | _ => none
        | _ => none
    | _ => none

/-- Array element list reader (after the opening bracket and whitespace). -/
def pElems : Nat → List Char → Option (List Json × List Char)
  | 0, _ => none
  | fuel + 1, l =>
    match pVal fuel l with
    | none => none
    | some (v, r) =>
      match skipWs r with
      | ',' :: r2 => (pElems fuel (skipWs r2)).map (fun p => (v :: p.1, p.2))
      | ']' :: r2 => some ([v], r2)
      | _ => none

end

/-- Model of `JSON.parse`: `none` corresponds to a thrown `SyntaxError`. -/
def parseJson (s : String) : Option Json :=
  match pVal (s.length + 1) s.data with
  | some (j, rest) => if skipWs rest = [] then some j else none
  | none => none

/-- Field access on a parsed JSON value (JS `obj.field`); with duplicate
keys `JSON.parse` keeps the last occurrence, hence the right-biased lookup. -/
def getField : Json → String → Option Json
  | .obj fields, k => lookupLastField fields k
  | _, _ => none
where lookupLastField : List (String × Json) → String → Option Json
  | [], _ => none
  | (k', v) :: rest, k =>
    match lookupLastField rest k with
    | some r => some r
    | none => if k' = k then some v else none

/-- JS truthiness of a JSON value. -/
def jsTruthy : Json → Bool
  | .null => false
  | .bool b => b
  | .num n => n ≠ 0
  | .str s => s ≠ ""
  | .arr _ => true
  | .obj _ => true

/-- JS truthiness of a field of a parsed JSON value (absent is falsy). -/
def fieldTruthy (j : Json) (k : String) : Bool :=
  match getField j k with
  | some v => jsTruthy v
  | none => false

mutual

/-- JS string coercion `String(v)` of a JSON value, as used when the source
appends a parsed value to a string accumulator. -/
def jsToString : Json → String
  | .null => "null"
  | .bool b => cond b "true" "false"
  | .num n => toString n
  | .str s => s
  | .arr xs => String.intercalate "," (jsToStringArr xs)
  | .obj _ => "[object Object]"

/-- Element coercion used by JS `Array.prototype.join` (null becomes ""). -/
def jsToStringArr : List Json → List String
  | [] => []
  | x :: r =>
    (match x with
     | .null => ""
     | y => jsToString y) :: jsToStringArr r

end

/-- Coerce a JSON field of a parsed payload to an optional string, as the
source does when storing `toolOutput.message` into a string-typed field. -/
def optFieldStr (j : Json) (k : String) : Option String :=
  (getField j k).map jsToString

/-- JS truthiness of an optional string (absent and empty are falsy). -/
def strTruthy : Option String → Bool
  | some s => s ≠ ""
  | none => false

/-- Model of JS `a || b` on optional strings. -/
def jsOrStr (a b : Option String) : Option String :=
  if strTruthy a then a else b

/-- Lifecycle status of a SqlExecution (global-store.ts). -/
inductive SqlStatus where
  | executing | completed | error | interrupted
deriving Repr, DecidableEq

/-- Channel of a content block: 'thinking' or 'text' (global-store.ts). -/
inductive CBType where
  | thinking | text
deriving Repr, DecidableEq

/-- Channel currently open in the parser, including the tool channels. -/
inductive BlockType where
  | thinking | text | toolInput | toolOutput
deriving Repr, DecidableEq

/-- ThinkingBlock of global-store.ts; `new Date()` timestamps are modelled by
the parser's logical clock. -/
structure ThinkingBlock where
  id : String
  content : String
  timestamp : Nat
deriving Repr, DecidableEq

/-- ContentBlock of global-store.ts. -/
structure ContentBlock where
  id : String
  type : CBType
  content : String
  timestamp : Nat
deriving Repr, DecidableEq

/-- Payload of a GroupedContentBlock: a merged string for text groups, the
list of constituent blocks for thinking groups. -/
inductive GroupedContent where
  | ofText (s : String)
  | ofThinking (blocks : List ThinkingBlock)
deriving Repr, DecidableEq

/-- GroupedContentBlock of global-store.ts. -/
structure GroupedContentBlock where
  id : String
  type : CBType
  content : GroupedContent
  timestamp : Nat
  isGrouped : Bool
deriving Repr, DecidableEq

/-- InterruptedQuery of global-store.ts. -/
structure InterruptedQuery where
  id : String
  query : String
  purpose : Option String
  originalQuery : String
deriving Repr, DecidableEq

/-- SqlExecution of global-store.ts.  Optional TS fields are `Option`s; the
`timestamp` is the logical clock value at creation time. -/
@[ext]
structure SqlExecution where
  id : String
  purpose : Option String
  query : String
  results : Option Json
  timestamp : Nat
  status : Option SqlStatus
  error : Option String
  threadId : Option String
  originalPurpose : Option String
deriving Repr

/-- The mutable fields of the ContentParser class.  `currentBlock` is the TS
object reference into `contentBlocks`, modelled as an index; `clock` models
`Date.now()` and the uniqueness source of generated identifiers. -/
structure ParserState where
  contentBlocks : List ContentBlock
  currentBlock : Option Nat
  blockCounter : Nat
  thinkingBlocks : List ThinkingBlock
  textContent : String
  currentThinkingContent : String
  currentBlockType : Option BlockType
  currentToolInput : String
  currentToolOutput : String
  sqlExecutions : List SqlExecution
  currentSqlId : Option String
  justEndedBlock : Bool
  isStreamingThinking : Bool
  isInterrupted : Bool
  interruptedQuery : Option InterruptedQuery
  resumeTargetSqlId : Option String
  clock : Nat
deriving Repr

/-- A freshly constructed ContentParser (equivalently, one after `reset`),
except that `resumeTargetSqlId` survives `reset` in the source; the initial
state has it unset. -/
def ParserState.init : ParserState :=
  { contentBlocks := [], currentBlock := none, blockCounter := 0,
    thinkingBlocks := [], textContent := "", currentThinkingContent := "",
    currentBlockType := none, currentToolInput := "", currentToolOutput := "",
    sqlExecutions := [], currentSqlId := none, justEndedBlock := false,
    isStreamingThinking := false, isInterrupted := false,
    interruptedQuery := none, resumeTargetSqlId := none, clock := 0 }

/-- ContentParser.createNewContentBlock. -/
def createNewContentBlock (st : ParserState) (ty : CBType) : ParserState :=
  let counter := st.blockCounter + 1
  let tyName := match ty with
    | .thinking => "thinking"
    | .text => "text"
  let blk : ContentBlock :=
    { id := tyName ++ "-" ++ toString counter, type := ty, content := "",
      timestamp := st.clock }
  { st with blockCounter := counter,
            contentBlocks := st.contentBlocks ++ [blk],
            currentBlock := some st.contentBlocks.length,
            clock := st.clock + 1 }

/-- Opening a thinking channel (both the block-start pair and the bare
`event: thinking` form funnel through these assignments). -/
def startThinkingBlock (st : ParserState) : ParserState :=
  createNewContentBlock
    { st with currentBlockType := some .thinking, currentThinkingContent := "",
              isStreamingThinking := true } .thinking

/-- Opening a text channel. -/
def startTextBlock (st : ParserState) : ParserState :=
  createNewContentBlock { st with currentBlockType := some .text } .text

/-- Opening a tool-input channel: resets the accumulator and allocates a
fresh execution id (`sql-Date.now()-random` in the source, modelled by the
logical clock). -/
def startToolInputBlock (st : ParserState) : ParserState :=
  { st with currentBlockType := some .toolInput, currentToolInput := "",
            currentSqlId := some ("sql-" ++ toString st.clock),
            clock := st.clock + 1 }

/-- Opening a tool-output channel: resets the output accumulator. -/
def startToolOutputBlock (st : ParserState) : ParserState :=
  { st with currentBlockType := some .toolOutput, currentToolOutput := "" }

/-- Bare `event: thinking` record: opens a new thinking block only when the
current channel differs. -/
def eventThinkingStep (st : ParserState) : ParserState :=
  if st.currentBlockType = some .thinking then st else startThinkingBlock st

/-- Bare `event: text` record. -/
def eventTextStep (st : ParserState) : ParserState :=
  if st.currentBlockType = some .text then st else startTextBlock st

/-- Append a decoded thinking fragment: the accumulator grows and the open
thinking block's content is replaced by the whole accumulator. -/
def appendThinking (st : ParserState) (content : String) : ParserState :=
  let buf := st.currentThinkingContent ++ content
  let st1 := { st with currentThinkingContent := buf }
  match st.currentBlock with
  | some i =>
    match st.contentBlocks.get? i with
    | some blk =>
      if blk.type = CBType.thinking then
        { st1 with contentBlocks := st.contentBlocks.set i ({ blk with content := buf }) }
      else st1
    | none => st1
  | none => st1

/-- Append a decoded text fragment to the open text block. -/
def appendText (st : ParserState) (content : String) : ParserState :=
  match st.currentBlock with
  | some i =>
    match st.contentBlocks.get? i with
    | some blk =>
      if blk.type = CBType.text then
        { st with contentBlocks := st.contentBlocks.set i ({ blk with content := blk.content ++ content }) }
      else st
    | none => st
  | none => st

/-- Close of a thinking channel: the accumulated text is trimmed and frozen
into the open block, and the accumulator is cleared. -/
def freezeThinking (st : ParserState) : ParserState :=
  let st1 :=
    match st.currentBlock with
    | some i =>
      match st.contentBlocks.get? i with
      | some blk =>
        if blk.type = CBType.thinking then
          { st with contentBlocks := st.contentBlocks.set i ({ blk with content := jsTrim st.currentThinkingContent }) }
        else st
      | none => st
    | none => st
  { st1 with currentThinkingContent := "", isStreamingThinking := false }

/-- The fixed keyword set of ContentParser.isSqlQuery. -/
def sqlKeywords : List String :=
  ["SELECT", "INSERT", "UPDATE", "DELETE", "CREATE", "ALTER", "DROP",
   "DECLARE", "WITH", "MERGE", "EXEC", "EXECUTE", "CALL"]

/-- One line of the candidate triggers classification when its trimmed text
starts with a keyword followed by a space, or equals a keyword. -/
def lineTriggersSql (line : String) : Bool :=
  let t := jsTrim line
  sqlKeywords.any (fun kw => jsStartsWith t (kw ++ " ") || t = kw)

/-- Lines skipped by the scan: blank lines and comment lines. -/
def lineSkipped (line : String) : Bool :=
  let t := jsTrim line
  t = "" || jsStartsWith t "--" || jsStartsWith t "/*"

/-- The scanning loop body of ContentParser.isSqlQuery over the selected
lines: skipped lines continue, a triggering line returns true. -/
def sqlScan : List String → Bool
  | [] => false
  | l :: rest =>
    if lineSkipped l then sqlScan rest
    else if lineTriggersSql l then true
    else sqlScan rest

/-- ContentParser.isSqlQuery: uppercase, trim, split into lines and scan the
first ten lines. -/
def isSqlQuery (query : String) : Bool :=
  sqlScan ((splitLines (jsTrim (jsToUpper query))).take 10)

/-- Non-global regex replace `^"` on the trimmed buffer. -/
def dropLeadQuote : List Char → List Char
  | '"' :: t => t
  | l => l

/-- Non-global regex replace `"$`. -/
def dropTrailQuote (l : List Char) : List Char :=
  if l.getLast? = some '"' then l.dropLast else l

/-- Global replace of the two-character sequence backslash-quote by a quote
(the first two `.replace` steps of processSqlOutput use this same pattern). -/
def replEscQuote : List Char → List Char
  | '\\' :: '"' :: rest => '"' :: replEscQuote rest
  | c :: rest => c :: replEscQuote rest
  | [] => []

/-- Global replace of the escape sequence backslash-n by a newline. -/
def replEscN : List Char → List Char
  | '\\' :: 'n' :: rest => '\n' :: replEscN rest
  | c :: rest => c :: replEscN rest
  | [] => []

/-- Global replace of the escape sequence backslash-t by a tab. -/
def replEscT : List Char → List Char
  | '\\' :: 't' :: rest => '\t' :: replEscT rest
  | c :: rest => c :: replEscT rest
  | [] => []

/-- Word character of the regex class `\w`. -/
def isWordChar (c : Char) : Bool :=
  c.isAlpha || c.isDigit || c = '_'

/-- Lookahead `[A-Za-z_]\w*"` after an identifier head character. -/
def afterWordQuote : List Char → Bool
  | c :: rest => if c = '"' then true else if isWordChar c then afterWordQuote rest else false
  | [] => false

/-- Lookahead test for the replace of a backslash by a quote when it
immediately precedes an identifier followed by a quote. -/
def lookIdentQuote : List Char → Bool
  | c :: rest => (c.isAlpha || c = '_') && afterWordQuote rest
  | [] => false

/-- Global replace of a backslash by a quote under the identifier-then-quote
lookahead; the lookahead does not consume input. -/
def replBackslashIdent : List Char → List Char
  | '\\' :: rest =>
    (if lookIdentQuote rest then '"' else '\\') :: replBackslashIdent rest
  | c :: rest => c :: replBackslashIdent rest
  | [] => []

/-- After the backslash of the key-repair pattern: consume whitespace and
require a colon, returning the remainder. -/
def matchWsColon : List Char → Option (List Char)
  | c :: rest => if c = ':' then some rest else if isWsChar c then matchWsColon rest else none
  | [] => none

/-- Match the tail of the key-repair pattern after an opening quote: a run of
characters other than quote and backslash, then a backslash, optional
whitespace and a colon.  Returns the run and the remainder after the colon. -/
def matchKeyFix : List Char → Option (List Char × List Char)
  | [] => none
  | c :: rest =>
    if c = '\\' then (matchWsColon rest).map (fun r => ([], r))
    else if c = '"' then none
    else (matchKeyFix rest).map (fun p => (c :: p.1, p.2))

/-- Global replace of the key-repair pattern, rewriting a quoted key whose
closing quote was corrupted into a backslash; fuel-indexed, scanning left to
right and resuming after each match as JS global replace does. -/
def replKeyFixAux : Nat → List Char → List Char
  | 0, l => l
  | _ + 1, [] => []
  | fuel + 1, '"' :: rest =>
    match matchKeyFix rest with
    | some (middle, r) => '"' :: middle ++ '"' :: ':' :: replKeyFixAux fuel r
    | none => '"' :: replKeyFixAux fuel rest
  | fuel + 1, c :: rest => c :: replKeyFixAux fuel rest

/-- Entry point of the key-repair replace. -/
def replKeyFix (l : List Char) : List Char :=
  replKeyFixAux l.length l

/-- The textual repair pipeline of ContentParser.processSqlOutput: trim,
strip one layer of enclosing quotes, then the fixed sequence of global
replaces (the second backslash-quote replace repeats the first, which is not
a no-op for overlapping occurrences and is reproduced as in the source). -/
def repairToolOutput (raw : String) : String :=
  let l0 := (jsTrim raw).data
  let l1 := dropTrailQuote (dropLeadQuote l0)
  (replKeyFix (replBackslashIdent (replEscT (replEscN (replEscQuote (replEscQuote l1)))))).asString

/-- Model of `Array.prototype.findIndex` over the ledger with an id
predicate, as used by processSqlOutput and mergeSqlExecutions. -/
def findIndexById : List SqlExecution → String → Option Nat
  | [], _ => none
  | e :: rest, i =>
    if e.id = i then some 0
    else (findIndexById rest i).map (· + 1)

/-- ContentParser.processSqlInput: on tool-input close, parse the buffer,
require a SQL-like `query` field, and append an "executing" record.  A
malformed buffer, a missing/falsy `query`, or a non-string `query` (whose
`toUpperCase` call throws inside the try) leaves the state unchanged. -/
def processSqlInput (st : ParserState) : ParserState :=
  match st.currentSqlId with
  | none => st
  | some sid =>
    if sid = "" ∨ st.currentToolInput = "" then st
    else
      match parseJson st.currentToolInput with
      | none => st
      | some j =>
        match getField j "query" with
        | some (.str q) =>
          if q ≠ "" ∧ isSqlQuery q then
            { st with
              sqlExecutions := st.sqlExecutions ++
                [{ id := sid,
                   purpose := some (match getField j "purpose" with
                     | some p => if jsTruthy p then jsToString p else "Query execution"
                     | none => "Query execution"),
                   query := q, results := none, timestamp := st.clock,
                   status := some .executing, error := none, threadId := none,
                   originalPurpose := none }],
              clock := st.clock + 1 }
          else st
        | _ => st

/-- ContentParser.processSqlOutput: on tool-output close, repair and parse
the buffer; on success update the record found by id (or synthesize one for
the resume case), on failure mark it (or a synthesized one) as "error". -/
def processSqlOutput (st : ParserState) : ParserState :=
  match st.currentSqlId with
  | none => st
  | some sid =>
    if sid = "" ∨ st.currentToolOutput = "" then st
    else
      match parseJson (repairToolOutput st.currentToolOutput) with
      | some j =>
        let newResults : Option Json := some (match getField j "results" with
          | some r => if jsTruthy r then r else j
          | none => j)
        let newStatus : SqlStatus := if fieldTruthy j "error" then .error else .completed
        let newError : Option String := optFieldStr j "message"
        match findIndexById st.sqlExecutions sid with
        | some i =>
          match st.sqlExecutions.get? i with
          | some ex =>
            let updated := { ex with results := newResults, status := some newStatus,
                                     error := newError }
            { st with sqlExecutions := st.sqlExecutions.set i updated }
          | none => st
        | none =>
          { st with
            sqlExecutions := st.sqlExecutions ++
              [{ id := sid, purpose := some "Query execution", query := "",
                 results := newResults, timestamp := st.clock,
                 status := some newStatus, error := newError,
                 threadId := none, originalPurpose := none }],
            clock := st.clock + 1 }
      | none =>
        match findIndexById st.sqlExecutions sid with
        | some i =>
          match st.sqlExecutions.get? i with
          | some ex =>
            let updated := { ex with status := some SqlStatus.error,
                                     error := some "Failed to parse SQL output response" }
            { st with sqlExecutions := st.sqlExecutions.set i updated }
          | none => st
        | none =>
          { st with
            sqlExecutions := st.sqlExecutions ++
              [{ id := sid, purpose := some "Query execution", query := "",
                 results := none, timestamp := st.clock,
                 status := some .error,
                 error := some "Failed to parse SQL output response",
                 threadId := none, originalPurpose := none }],
            clock := st.clock + 1 }

/-- Search of ContentParser.handleInterrupt over the whole chunk's lines for
the first trimmed line that starts with `data: [` and contains `"value"`. -/
def findInterruptDataLine : List String → Option String
  | [] => none
  | l :: rest =>
    let t := jsTrim l
    if jsStartsWith t "data: [" && jsIncludes t "\"value\"" then some t
    else findInterruptDataLine rest

/-- Processing of the found interrupt data line: a JSON array whose first
element carries a SQL-like string `value` yields an InterruptedQuery and an
"interrupted" execution record; anything else (parse failure, empty array,
missing/falsy/non-string `value`, non-SQL value) has no effect. -/
def processInterruptLine (st : ParserState) (t : String) : ParserState :=
  match parseJson (jsDrop t 6) with
  | none => st
  | some j =>
    match j with
    | .arr (qd :: _) =>
      match getField qd "value" with
      | some (.str v) =>
        if v ≠ "" ∧ isSqlQuery v then
          let iid := match getField qd "id" with
            | some idv => if jsTruthy idv then jsToString idv
                          else "interrupted-" ++ toString st.clock
            | none => "interrupted-" ++ toString st.clock
          { st with
            interruptedQuery := some
              { id := iid, query := v, originalQuery := v,
                purpose := some "Interrupted Query" },
            sqlExecutions := st.sqlExecutions ++
              [{ id := iid, purpose := some "Interrupted Query",
                 originalPurpose := some "Interrupted Query", query := v,
                 results := none, timestamp := st.clock,
                 status := some .interrupted, error := none, threadId := none }],
            clock := st.clock + 1 }
        else st
      | _ => st
    | _ => st

/-- ContentParser.handleInterrupt: mark the stream interrupted, extract the
paused query from the first interrupt data line of the chunk, and otherwise
fall back to the in-flight tool-input buffer. -/
def handleInterrupt (st : ParserState) (lines : List String) : ParserState :=
  let st1 := { st with isInterrupted := true }
  let st2 :=
    match findInterruptDataLine lines with
    | some t => processInterruptLine st1 t
    | none => st1
  if st2.interruptedQuery = none ∧ st2.currentToolInput ≠ "" ∧ strTruthy st2.currentSqlId then
    match parseJson st2.currentToolInput with
    | none => st2
    | some j =>
      match getField j "query" with
      | some (.str q) =>
        if q ≠ "" ∧ isSqlQuery q then
          let sid := st2.currentSqlId.getD ""
          let purp := match getField j "purpose" with
            | some p => if jsTruthy p then jsToString p else "Interrupted Query"
            | none => "Interrupted Query"
          { st2 with
            interruptedQuery := some
              { id := sid, query := q, originalQuery := q, purpose := some purp },
            sqlExecutions := st2.sqlExecutions ++
              [{ id := sid, purpose := some purp, originalPurpose := some purp,
                 query := q, results := none, timestamp := st2.clock,
                 status := some .interrupted, error := none, threadId := none }],
            clock := st2.clock + 1 }
        else st2
      | _ => st2
  else st2

/-- The `event: block-end` record: sets the single-shot suppression flag,
finalizes the open channel (freezing thinking content or running the tool
processors, with the resume-target fallback for tool output), and clears the
current block references. -/
def blockEndStep (st : ParserState) : ParserState :=
  let stA := { st with justEndedBlock := true }
  let stB :=
    if st.currentBlockType = some .thinking ∧ st.isStreamingThinking then
      freezeThinking stA
    else if st.currentBlockType = some .toolInput ∧ strTruthy st.currentSqlId then
      processSqlInput stA
    else if st.currentBlockType = some .toolOutput then
      let stR :=
        if ¬ strTruthy st.currentSqlId ∧ strTruthy st.resumeTargetSqlId then
          { stA with currentSqlId := st.resumeTargetSqlId }
        else stA
      if strTruthy stR.currentSqlId then processSqlOutput stR else stR
    else stA
  { stB with currentBlock := none, currentBlockType := none }

/-- The `event: complete` record: force-closes a still-streaming thinking
channel and clears the current block references. -/
def completeStep (st : ParserState) : ParserState :=
  let st1 :=
    if st.currentBlockType = some .thinking ∧ st.isStreamingThinking then
      freezeThinking st
    else st
  { st1 with currentBlock := none, currentBlockType := none }

/-- Processing of a line that is none of the recognized event records: the
`data: ` branch (with the single-shot suppression of the line following a
block end, and JSON decoding for the content channels), the raw-content
branch for open tool channels, and the trailing `event: complete` check that
the loop body applies after them. -/
def dataOrOtherStep (st : ParserState) (line : String) : ParserState :=
  let st1 :=
    if jsStartsWith line "data: " then
      if st.justEndedBlock then { st with justEndedBlock := false }
      else
        match st.currentBlockType with
        | none => st
        | some bt =>
          let dataContent := jsDrop line 6
          match bt with
          | .toolInput =>
            -- JSON.parse failure leaves `content` as the empty string,
            -- which is still appended (a no-op on the accumulator).
            let content := match parseJson dataContent with
              | some j => jsToString j
              | none => ""
            { st with currentToolInput := st.currentToolInput ++ content }
          | .toolOutput =>
            { st with currentToolOutput := st.currentToolOutput ++ dataContent }
          | .thinking =>
            match parseJson dataContent with
            | some j => appendThinking st (jsToString j)
            | none => st
          | .text =>
            match parseJson dataContent with
            | some j => appendText st (jsToString j)
            | none => st
    else if st.currentBlockType = some .toolInput ∨ st.currentBlockType = some .toolOutput then
      let rawContent :=
        if jsStartsWith line "\"" ∧ jsEndsWith line "\"" ∧ line.length ≥ 1 then
          (line.data.drop 1).dropLast.asString
        else line
      if st.currentBlockType = some .toolInput then
        { st with currentToolInput := st.currentToolInput ++ rawContent }
      else
        { st with currentToolOutput := st.currentToolOutput ++ rawContent }
    else st
  if jsStartsWith line "event: complete" then completeStep st1 else st1

/-- Dispatch of one trimmed line that is neither blank nor a block-start
record: the remaining event records and the data/raw branch. -/
def processSSEPlainLine (st : ParserState) (line : String) : ParserState :=
  if line = "event: block-end" then blockEndStep st
  else if line = "event: thinking" then eventThinkingStep st
  else if line = "event: text" then eventTextStep st
  else if line = "event: tool-input" then { st with currentBlockType := some .toolInput }
  else if line = "event: tool-output" then { st with currentBlockType := some .toolOutput }
  else dataOrOtherStep st line

/-- The line loop of ContentParser.processSSEContent.  The block-start pair
consumes the following type-naming line when it is recognized; the
one-element case is the same dispatch with no following line to consume. -/
def processSSELines : ParserState → List String → ParserState
  | st, [] => st
  | st, [l] =>
    let line := jsTrim l
    if line = "" then st
    else if line = "event: block-start" then st
    else processSSEPlainLine st line
  | st, l :: next :: rest2 =>
    let line := jsTrim l
    if line = "" then processSSELines st (next :: rest2)
    else if line = "event: block-start" then
      let nl := jsTrim next
      if nl = "data: \"thinking\"" then processSSELines (startThinkingBlock st) rest2
      else if nl = "data: \"text\"" then processSSELines (startTextBlock st) rest2
      else if nl = "data: \"tool-input\"" then processSSELines (startToolInputBlock st) rest2
      else if nl = "data: \"tool-output\"" then processSSELines (startToolOutputBlock st) rest2
      else processSSELines st (next :: rest2)
    else processSSELines (processSSEPlainLine st line) (next :: rest2)

/-- ContentParser.processSSEContent. -/
def processSSEContent (st : ParserState) (sseContent : String) : ParserState :=
  processSSELines st (splitLines sseContent)

/-- One outer line of parseChunk: skip blanks and the DONE sentinel, detect
the interrupt event (which stops the whole chunk), and unwrap the envelope.
A non-string truthy `content` would make `split` throw inside the try and is
caught with no state change; a malformed envelope line is skipped. -/
def parseChunkLines (st : ParserState) (allLines : List String) : List String → ParserState
  | [] => st
  | l :: rest =>
    let t := jsTrim l
    if t = "" ∨ t = "data: [DONE]" then parseChunkLines st allLines rest
    else if jsIncludes t "event: __interrupt__" then handleInterrupt st allLines
    else if jsStartsWith t "data: \x7b" then
      let st' :=
        match parseJson (jsDrop t 6) with
        | some j =>
          match getField j "content" with
          | some (.str s) => if s ≠ "" then processSSEContent st s else st
          | _ => st
        | none => st
      parseChunkLines st' allLines rest
    else parseChunkLines st allLines rest

/-- The run accumulator of ContentParser.groupConsecutiveBlocks. -/
structure RunAcc where
  type : CBType
  blocks : List ContentBlock
  startTimestamp : Nat
deriving Repr, DecidableEq

/-- finalizeCurrentGroup: convert a finished run into a GroupedContentBlock
appended to the output (the run is never empty in the source; the text
branch reads the first block's id, giving "" on the impossible empty run). -/
def finalizeGroup (grouped : List GroupedContentBlock) (g : RunAcc) : List GroupedContentBlock :=
  if g.type = .thinking then
    grouped ++
      [{ id := "grouped-thinking-" ++ toString (grouped.length + 1),
         type := .thinking,
         content := .ofThinking (g.blocks.map fun b => { id := b.id, content := b.content, timestamp := b.timestamp }),
         timestamp := g.startTimestamp,
         isGrouped := decide (1 < g.blocks.length) }]
  else
    grouped ++
      [{ id := if 1 < g.blocks.length then "grouped-text-" ++ toString (grouped.length + 1)
               else (match g.blocks with
                     | b :: _ => b.id
                     | [] => ""),
         type := .text,
         content := .ofText (String.join (g.blocks.map (fun b => b.content))),
         timestamp := g.startTimestamp,
         isGrouped := decide (1 < g.blocks.length) }]

/-- The loop body of groupConsecutiveBlocks over one block. -/
def groupStep : List GroupedContentBlock × Option RunAcc → ContentBlock →
    List GroupedContentBlock × Option RunAcc
  | (grouped, none), b => (grouped, some { type := b.type, blocks := [b], startTimestamp := b.timestamp })
  | (grouped, some g), b =>
    if g.type = b.type then
      (grouped, some { g with blocks := g.blocks ++ [b],
                              startTimestamp := if b.timestamp < g.startTimestamp then b.timestamp else g.startTimestamp })
    else
      (finalizeGroup grouped g, some { type := b.type, blocks := [b], startTimestamp := b.timestamp })

/-- Finalization of the trailing run at the end of the scan. -/
def finalizeApp : List GroupedContentBlock × Option RunAcc → List GroupedContentBlock
  | (grouped, none) => grouped
  | (grouped, some g) => finalizeGroup grouped g

/-- ContentParser.groupConsecutiveBlocks. -/
def groupConsecutiveBlocks (blocks : List ContentBlock) : List GroupedContentBlock :=
  finalizeApp (blocks.foldl groupStep ([], none))

/-- ContentParser.updateLegacyFormat: recompute the legacy thinking-block
list and concatenated text from the grouped view. -/
def updateLegacyFormat (st : ParserState) : ParserState :=
  let grouped := groupConsecutiveBlocks st.contentBlocks
  { st with
    thinkingBlocks :=
      ((grouped.filter (fun g => g.type = .thinking)).map (fun g =>
        match g.content with
        | .ofThinking bs => bs
        | .ofText s => [{ id := g.id, content := s, timestamp := g.timestamp }])).flatten,
    textContent :=
      String.join ((grouped.filter (fun g => g.type = .text)).map (fun g =>
        match g.content with
        | .ofText s => s
        | .ofThinking _ => "")) }

/-- ContentParser.parseChunk, as a transformer of the parser state (the
returned record of the source is a projection of the updated state). -/
def parseChunk (st : ParserState) (rawChunk : String) : ParserState :=
  let lines := splitLines rawChunk
  updateLegacyFormat (parseChunkLines st lines lines)

/-- The generic default purpose label of the source. -/
def genericPurpose : String := "Query execution"

/-- The per-entry update of mergeSqlExecutions when the delta's id matches an
existing ledger entry (chatbot.tsx): object spread with the documented
field-preservation rules. -/
def mergeOne (ex newSql : SqlExecution) (fallbackThreadId : Option String) : SqlExecution :=
  { id := newSql.id,
    results := newSql.results,
    timestamp := newSql.timestamp,
    status := newSql.status,
    error := newSql.error,
    query := if jsTrim newSql.query = "" then ex.query else newSql.query,
    purpose :=
      if newSql.purpose = some genericPurpose ∧ strTruthy ex.purpose ∧ ex.purpose ≠ some genericPurpose then
        ex.purpose
      else newSql.purpose,
    threadId := jsOrStr ex.threadId (jsOrStr newSql.threadId fallbackThreadId),
    originalPurpose := jsOrStr ex.originalPurpose ex.purpose }

/-- The append case of mergeSqlExecutions for a delta with a new id. -/
def newEntry (newSql : SqlExecution) (fallbackThreadId : Option String) : SqlExecution :=
  { newSql with
    threadId := jsOrStr newSql.threadId fallbackThreadId,
    originalPurpose := newSql.purpose }

/-- One delta of the mergeSqlExecutions loop: update the first entry with a
matching id in place, or append.  (The inner `none` case is unreachable,
since findIndexById returns indices into the list.) -/
def mergeStep (fallbackThreadId : Option String) (merged : List SqlExecution)
    (newSql : SqlExecution) : List SqlExecution :=
  match findIndexById merged newSql.id with
  | some i =>
    match merged.get? i with
    | some ex => merged.set i (mergeOne ex newSql fallbackThreadId)
    | none => merged
  | none => merged ++ [newEntry newSql fallbackThreadId]

/-- mergeSqlExecutions of chatbot.tsx. -/
def mergeSqlExecutions (existing incoming : List SqlExecution)
    (fallbackThreadId : Option String) : List SqlExecution :=
  incoming.foldl (mergeStep fallbackThreadId) existing

/-- JSON string escaping, used to build concrete envelope lines. -/
def jsonEscapeChars : List Char → List Char
  | [] => []
  | c :: r =>
    (if c = '"' then ['\\', '"']
     else if c = '\\' then ['\\', '\\']
     else if c = '\n' then ['\\', 'n']
     else if c = '\t' then ['\\', 't']
     else if c = '\r' then ['\\', 'r']
     else [c]) ++ jsonEscapeChars r

/-- Quote a string as a JSON string literal. -/
def jsonQuote (s : String) : String :=
  "\"" ++ (jsonEscapeChars s.data).asString ++ "\""

/-- Build one outer transport envelope line carrying the given inner
protocol text. -/
def mkEnvelope (inner : String) : String :=
  "data: \x7b\"content\": " ++ jsonQuote inner ++ "\x7d"

/-- Inner protocol stream for claim C1: a tool-input block carrying a query
and purpose, closed, followed by a tool-output block carrying results. -/
def c1inner : String :=
  String.intercalate "\n"
    ["event: block-start",
     "data: \"tool-input\"",
     "data: \"\x7b\\\"query\\\":\\\"SELECT * FROM t\\\",\\\"purpose\\\":\\\"list\\\"\x7d\"",
     "event: block-end",
     "data: \"tool-input\"",
     "event: block-start",
     "data: \"tool-output\"",
     "data: \x7b\"results\":[\x7b\"a\":1\x7d]\x7d",
     "event: block-end",
     "data: \"tool-output\""]

/-- The chunk of claim C1. -/
def c1chunk : String := mkEnvelope c1inner

/-- An "executing" ledger entry used by the concrete tool-output states. -/
def exQ1 : SqlExecution :=
  { id := "q1", purpose := some "list", query := "SELECT 1", results := none,
    timestamp := 0, status := some .executing, error := none, threadId := none,
    originalPurpose := none }

/-- Parser state at a tool-output close whose payload carries a JSON-null
`error` field (claim C2's counterexample input). -/
def c2st : ParserState :=
  { ParserState.init with
    sqlExecutions := [exQ1], currentSqlId := some "q1",
    currentBlockType := some .toolOutput,
    currentToolOutput := "\x7b\"error\":null,\"message\":\"m\"\x7d" }

/-- Parser state at a tool-output close whose payload is the error payload
of claim C2's concrete scenario. -/
def c2wst : ParserState :=
  { ParserState.init with
    sqlExecutions := [exQ1], currentSqlId := some "q1",
    currentBlockType := some .toolOutput,
    currentToolOutput := "\x7b\"error\":\"x\",\"message\":\"bad column\"\x7d" }

/-- Ledger entry with neither purpose nor originalPurpose (claim C3's
counterexample input). -/
def c3ex : SqlExecution :=
  { id := "q1", purpose := none, query := "SELECT 1", results := none,
    timestamp := 0, status := some .completed, error := none, threadId := none,
    originalPurpose := none }

/-- Delta carrying a purpose, merged onto `c3ex`. -/
def c3d : SqlExecution :=
  { id := "q1", purpose := some "list", query := "SELECT 1", results := none,
    timestamp := 1, status := some .completed, error := none, threadId := none,
    originalPurpose := none }

/-- Existing ledger entry with an originalPurpose (claim C4). -/
def c4ex : SqlExecution :=
  { id := "q1", purpose := some "list", query := "SELECT 1", results := none,
    timestamp := 0, status := some .executing, error := none, threadId := none,
    originalPurpose := some "a" }

/-- Delta whose originalPurpose differs from the existing entry's (claim
C4's counterexample input). -/
def c4d : SqlExecution :=
  { id := "q1", purpose := some "other", query := "SELECT 2", results := none,
    timestamp := 1, status := some .completed, error := none, threadId := none,
    originalPurpose := some "b" }

/-- The resume delta of claim C4's concrete scenario: empty query, completed
status, results present. -/
def c4resume : SqlExecution :=
  { id := "q1", purpose := some "Query execution", query := "",
    results := some (.arr [.obj [("a", .num 1)]]), timestamp := 2,
    status := some .completed, error := none, threadId := none,
    originalPurpose := none }

/-- Ten comment-only lines followed by a SELECT line (claim C5). -/
def c5comments : String :=
  String.intercalate "\n" (List.replicate 10 "--c" ++ ["SELECT 1"])

/-- Ten prose lines (claim C5). -/
def c5prose : String :=
  String.intercalate "\n" (List.replicate 10 "just prose here")

/-- Inner protocol stream for claim C6: a closed text block followed by a
bare text event record and two data records. -/
def c6inner : String :=
  String.intercalate "\n"
    ["event: block-start",
     "data: \"text\"",
     "data: \"X\"",
     "event: block-end",
     "event: text",
     "data: \"A\"",
     "data: \"B\""]

/-- The chunk of claim C6's counterexample. -/
def c6chunk : String := mkEnvelope c6inner

/-- Interrupt chunk of claim C7 with a SQL-like value. -/
def c7chunkSql : String :=
  "event: __interrupt__\ndata: [\x7b\"id\":\"q1\",\"value\":\"SELECT 1\"\x7d]"

/-- Interrupt chunk of claim C7 with a non-SQL value. -/
def c7chunkHello : String :=
  "event: __interrupt__\ndata: [\x7b\"id\":\"q1\",\"value\":\"hello\"\x7d]"

/-- Interrupt chunk of claim C7 followed by a further envelope record that
must not be processed. -/
def c7chunkTail : String :=
  c7chunkSql ++ "\n" ++
    mkEnvelope "event: block-start\ndata: \"text\"\ndata: \"HI\""

/-- Chunk creating an executing record (claim C9's counterexample, part 1). -/
def c9chunkA : String :=
  mkEnvelope (String.intercalate "\n"
    ["event: block-start",
     "data: \"tool-input\"",
     "data: \"\x7b\\\"query\\\":\\\"SELECT 1\\\"\x7d\"",
     "event: block-end",
     "data: \"tool-input\""])

/-- Chunk closing a tool-output block over a malformed buffer (claim C9's
counterexample, part 2). -/
def c9chunkB : String :=
  mkEnvelope (String.intercalate "\n"
    ["event: block-start",
     "data: \"tool-output\"",
     "data: notjson",
     "event: block-end",
     "data: \"tool-output\""])

/-- Parser state at a tool-output close with an empty buffer (claim C10's
witness input). -/
def c10stEmptyBuf : ParserState :=
  { ParserState.init with
    sqlExecutions := [exQ1], currentSqlId := some "q1",
    currentBlockType := some .toolOutput, currentToolOutput := "" }

/-- Parser state at a tool-output close with no bound id and no resume
target (claim C10's second witness input). -/
def c10stNoId : ParserState :=
  { ParserState.init with
    sqlExecutions := [exQ1], currentSqlId := none, resumeTargetSqlId := none,
    currentBlockType := some .toolOutput,
    currentToolOutput := "\x7b\"results\":1\x7d" }

/-- Two text content blocks (claim C8's counterexample input). -/
def cbA : ContentBlock := { id := "text-1", type := .text, content := "a", timestamp := 0 }

/-- Second text block. -/
def cbB : ContentBlock := { id := "text-2", type := .text, content := "b", timestamp := 1 }

/-- A thinking block (claim C8's witness input). -/
def cbTh : ContentBlock := { id := "thinking-1", type := .thinking, content := "t", timestamp := 0 }

/-- Parser state at a tool-output close over a malformed buffer (claim C9's
witness input). -/
def c9wst : ParserState :=
  { ParserState.init with
    sqlExecutions := [exQ1], currentSqlId := some "q1",
    currentBlockType := some .toolOutput, currentToolOutput := "notjson" }

/-- Folding the per-entry merge of a list of deltas over one entry (the
effect of mergeSqlExecutions on a single position, delta by delta). -/
def mergeFold (fb : Option String) (ex : SqlExecution) (ds : List SqlExecution) : SqlExecution :=
  ds.foldl (fun a b => mergeOne a b fb) ex

/-- The deltas of a batch that target position `k` of ledger `M`: those
whose id first matches at that position. -/
def deltasFor (M : List SqlExecution) (k : Nat) (B : List SqlExecution) : List SqlExecution :=
  B.filter (fun d => decide (findIndexById M d.id = some k))

/-- Last element of a list, with a default for the empty list; `foldl` form
so that it matches the overwritten fields of the merge. -/
def lastD {α : Type} (x : α) (l : List α) : α :=
  l.foldl (fun _ b => b) x

/-- The query rule of the per-entry merge, as a fold step. -/
def qStep (qe qd : String) : String :=
  if jsTrim qd = "" then qe else qd

/-- Fold of the query rule over the deltas' queries. -/
def qFold (q : String) (qs : List String) : String :=
  qs.foldl qStep q

/-- The purpose rule of the per-entry merge, as a fold step. -/
def pStepQE (pe pd : Option String) : Option String :=
  if pd = some genericPurpose ∧ strTruthy pe ∧ pe ≠ some genericPurpose then pe else pd

/-- Fold of the purpose rule over the deltas' purposes. -/
def pFold (p : Option String) (ps : List (Option String)) : Option String :=
  ps.foldl pStepQE p

/-- The threadId rule of the per-entry merge, as a fold step. -/
def tStep (fb te td : Option String) : Option String :=
  jsOrStr te (jsOrStr td fb)

/-- Fold of the threadId rule over the deltas' threadIds. -/
def tFold (fb : Option String) (t : Option String) (ts : List (Option String)) : Option String :=
  ts.foldl (tStep fb) t

/-- The joint purpose/originalPurpose rule of the per-entry merge. -/
def poStep (x : Option String × Option String) (pd : Option String) :
    Option String × Option String :=
  (pStepQE x.1 pd, jsOrStr x.2 x.1)

/-- Fold of the joint purpose/originalPurpose rule. -/
def poFold (x : Option String × Option String) (ps : List (Option String)) :
    Option String × Option String :=
  ps.foldl poStep x

/-- A successful `get?` bounds the index. -/
theorem list_get?_some_lt {α : Type} {l : List α} {n : Nat} {a : α}
    (h : l.get? n = some a) : n < l.length :=
  (List.get?_eq_some.mp h).1

/-- Setting then reading the same valid position. -/
theorem list_get?_set_self {α : Type} {l : List α} {n : Nat} {a : α}
    (h : n < l.length) : (l.set n a).get? n = some a := by
  rw [List.get?_set, if_pos rfl, List.get?_eq_get h]
  rfl

/-- Setting one position leaves the others unchanged. -/
theorem list_get?_set_ne {α : Type} (l : List α) {m n : Nat} (a : α)
    (h : m ≠ n) : (l.set m a).get? n = l.get? n := by
  rw [List.get?_set]
  simp [h]

/-- A true `jsStartsWith` exposes the underlying character-list split. -/
theorem jsStartsWith_data {s p : String} (h : jsStartsWith s p = true) :
    ∃ r, s.data = p.data ++ r := by
  have hp := (List.isPrefixOf_iff_prefix).mp h
  obtain ⟨r, hr⟩ := hp
  exact ⟨r, hr.symm⟩

/-- C1: processing, from the initial state, a stream in which a tool-input
block opens and closes with accumulated payload
`jsonof query SELECT * FROM t and purpose list` and is immediately followed
by a tool-output block closing with payload `results [[a 1]]` yields a
ledger with exactly one SqlExecution, status "completed", the claimed query
and the claimed results. -/
theorem c1_tool_io_roundtrip :
    (parseChunk ParserState.init c1chunk).sqlExecutions.map
      (fun e => (e.status, e.query, e.results)) =
    [(some SqlStatus.completed, "SELECT * FROM t",
      some (Json.arr [Json.obj [("a", Json.num 1)]]))] := rfl

/-- C7: an `event: __interrupt__` record followed by an interrupt data
record with a SQL-like value sets the interrupted flag, produces the
InterruptedQuery and a matching "interrupted" execution; a non-SQL value
sets the flag with no InterruptedQuery and no execution; and records of the
chunk after the interrupt record are not processed. -/
theorem c7_interrupt_detection :
    ((parseChunk ParserState.init c7chunkSql).isInterrupted = true ∧
     (parseChunk ParserState.init c7chunkSql).interruptedQuery =
       some { id := "q1", query := "SELECT 1", purpose := some "Interrupted Query",
              originalQuery := "SELECT 1" } ∧
     (parseChunk ParserState.init c7chunkSql).sqlExecutions.map
       (fun e => (e.id, e.query, e.status)) =
       [("q1", "SELECT 1", some SqlStatus.interrupted)]) ∧
    ((parseChunk ParserState.init c7chunkHello).isInterrupted = true ∧
     (parseChunk ParserState.init c7chunkHello).interruptedQuery = none ∧
     (parseChunk ParserState.init c7chunkHello).sqlExecutions = []) ∧
    (parseChunk ParserState.init c7chunkTail).contentBlocks = [] :=
  ⟨⟨rfl, rfl, rfl⟩, ⟨rfl, rfl, rfl⟩, rfl⟩

theorem processSqlOutput_empty (st : ParserState) (h : st.currentToolOutput = "") :
    processSqlOutput st = st := by
  unfold processSqlOutput
  rcases hs : st.currentSqlId with _ | sid
  · rfl
  · simp [h]

/-- C10: when a tool-output block closes with an empty accumulated buffer,
or with no bound execution id and no resume target, the execution ledger is
left unchanged: no status transition occurs and no record is synthesized. -/
theorem c10_tool_output_frame (st : ParserState)
    (hbt : st.currentBlockType = some BlockType.toolOutput)
    (h : st.currentToolOutput = "" ∨ (st.currentSqlId = none ∧ st.resumeTargetSqlId = none)) :
    (blockEndStep st).sqlExecutions = st.sqlExecutions := by
  have key : ∀ s2 : ParserState, s2.currentToolOutput = "" → s2.sqlExecutions = st.sqlExecutions →
      (if strTruthy s2.currentSqlId then processSqlOutput s2 else s2).sqlExecutions = st.sqlExecutions := by
    intro s2 h2 h3
    split
    · rw [processSqlOutput_empty s2 h2, h3]
    · exact h3
  rcases h with h | ⟨h1, h2⟩
  · simp only [blockEndStep, hbt, Option.some.injEq, reduceCtorEq, false_and, if_false,
      eq_self_iff_true, if_true, ite_true, ite_false]
    exact key _ (by split <;> exact h) (by split <;> rfl)
  · simp only [blockEndStep, hbt, Option.some.injEq, reduceCtorEq, false_and, if_false,
      eq_self_iff_true, if_true, ite_true, ite_false]
    simp [h1, h2, strTruthy]

/-- Concrete instantiation of the C10 frame theorem at its two cases. -/
theorem c10_tool_output_frame_witness :
    (blockEndStep c10stEmptyBuf).sqlExecutions = c10stEmptyBuf.sqlExecutions ∧
    (blockEndStep c10stNoId).sqlExecutions = c10stNoId.sqlExecutions :=
  ⟨c10_tool_output_frame c10stEmptyBuf rfl (Or.inl rfl),
   c10_tool_output_frame c10stNoId rfl (Or.inr ⟨rfl, rfl⟩)⟩

/-- C5 counterexample: ten comment-only lines ahead of a SELECT line defeat
the classifier (the claim asserts such a string still classifies as
SQL-like), while the SELECT line alone classifies. -/
theorem c5_comment_budget_counterexample :
    isSqlQuery c5comments = false ∧ isSqlQuery "SELECT 1" = true :=
  ⟨rfl, rfl⟩

/-- The head character of a string agrees with the head of any prefix it
starts with. -/
theorem head?_of_startsWith {s p : String} (h : jsStartsWith s p = true)
    (hp : p.data ≠ []) : s.data.head? = p.data.head? := by
  obtain ⟨r, hr⟩ := jsStartsWith_data h
  rw [hr]
  cases hd : p.data with
  | nil => exact absurd hd hp
  | cons a as => simp

/-- A line whose trimmed text begins with a comment-start character never
matches the keyword test. -/
theorem head_ne_triggers (l : String) (c : Char)
    (hh : (jsTrim l).data.head? = some c) (hc : c = '-' ∨ c = '/') :
    lineTriggersSql l = false := by
  rw [Bool.eq_false_iff]
  intro hany
  simp only [lineTriggersSql, List.any_eq_true] at hany
  obtain ⟨kw, hkw, hor⟩ := hany
  rw [Bool.or_eq_true] at hor
  rcases hc with rfl | rfl <;>
    fin_cases hkw <;>
    rcases hor with hsw | heq
  all_goals
    first
      | (have h2 := head?_of_startsWith hsw (by decide)
         rw [hh] at h2
         exact absurd h2 (by decide))
      | (replace heq := of_decide_eq_true heq
         rw [heq] at hh
         exact absurd hh (by decide))

/-- Lines skipped by the scanning loop never match the keyword test. -/
theorem lineSkipped_not_triggers (l : String) (h : lineSkipped l = true) :
    lineTriggersSql l = false := by
  simp only [lineSkipped, Bool.or_eq_true, decide_eq_true_eq] at h
  rcases h with (h | h) | h
  · simp only [lineTriggersSql, h]
    rfl
  · obtain ⟨r, hr⟩ := jsStartsWith_data h
    apply head_ne_triggers l '-'
    · rw [hr]; rfl
    · exact Or.inl rfl
  · obtain ⟨r, hr⟩ := jsStartsWith_data h
    apply head_ne_triggers l '/'
    · rw [hr]; rfl
    · exact Or.inr rfl

/-- The scanning loop is equivalent to testing whether any selected line
matches the keyword test, because skipped lines never match it. -/
theorem sqlScan_eq_any (ls : List String) : sqlScan ls = ls.any lineTriggersSql := by
  induction ls with
  | nil => rfl
  | cons l rest ih =>
    rw [List.any_cons]
    by_cases h : lineSkipped l = true
    · simp only [sqlScan, h, if_true, ite_true, ih, lineSkipped_not_triggers l h, Bool.false_or]
    · have h' : lineSkipped l = false := Bool.eq_false_iff.mpr h
      cases ht : lineTriggersSql l
      · simp [sqlScan, h', ht, ih]
      · simp [sqlScan, h', ht]

/-- C5 (amended): the classifier scans exactly the first ten physical lines
of the uppercased, trimmed candidate — comment and blank lines are skipped
without classifying but still occupy the ten-line budget — and classifies
iff one of those ten lines starts with a keyword followed by a space or
equals a keyword.  Hence ten comment-only lines ahead of a SELECT defeat the
classifier and ten prose lines never classify. -/
theorem c5_first_ten_budget (q : String) :
    isSqlQuery q = ((splitLines (jsTrim (jsToUpper q))).take 10).any lineTriggersSql := by
  unfold isSqlQuery
  exact sqlScan_eq_any _

/-- C6 counterexample: in the stream `c6inner`, the record immediately
following `event: block-end` is the event record `event: text`; it is not
discarded (it opens the second text block), while the later record
`data: "A"` — not the immediately following one — is the record the
suppression flag discards.  The claim predicts blocks "X", "A"+"B"; the code
produces "X" and "B". -/
theorem c6_suppression_counterexample :
    (parseChunk ParserState.init c6chunk).contentBlocks.map (fun b => b.content) = ["X", "B"] ∧
    (parseChunk ParserState.init c6chunk).textContent = "XB" :=
  ⟨rfl, rfl⟩

/-- Distinctness of a data-prefixed line from the event records and the
blank line, via the head character. -/
theorem startsWith_data_ne (s : String) (hd : jsStartsWith s "data: " = true) :
    s ≠ "" ∧ s ≠ "event: block-start" ∧ s ≠ "event: block-end" ∧ s ≠ "event: thinking" ∧
    s ≠ "event: text" ∧ s ≠ "event: tool-input" ∧ s ≠ "event: tool-output" := by
  have h2 := head?_of_startsWith hd (by decide)
  refine ⟨?_, ?_, ?_, ?_, ?_, ?_, ?_⟩ <;> intro he <;> rw [he] at h2 <;> exact absurd h2 (by decide)

/-- A data-prefixed line does not start with `event: complete`. -/
theorem startsWith_data_not_complete (s : String) (hd : jsStartsWith s "data: " = true) :
    jsStartsWith s "event: complete" = false := by
  rw [Bool.eq_false_iff]
  intro hc
  have h1 := head?_of_startsWith hd (by decide)
  have h2 := head?_of_startsWith hc (by decide)
  rw [h1] at h2
  exact absurd h2 (by decide)

/-- On a data-prefixed line the plain dispatch reaches the data branch. -/
theorem processSSEPlainLine_data (st : ParserState) (line : String)
    (hd : jsStartsWith line "data: " = true) :
    processSSEPlainLine st line = dataOrOtherStep st line := by
  obtain ⟨_, _, h2, h3, h4, h5, h6⟩ := startsWith_data_ne line hd
  unfold processSSEPlainLine
  rw [if_neg h2, if_neg h3, if_neg h4, if_neg h5, if_neg h6]

/-- The loop on a data-prefixed line applies the data branch and continues
with the remaining lines. -/
theorem processSSELines_data_step (st : ParserState) (l : String) (rest : List String)
    (hd : jsStartsWith (jsTrim l) "data: " = true) :
    processSSELines st (l :: rest) = processSSELines (dataOrOtherStep st (jsTrim l)) rest := by
  obtain ⟨h0, h1, _, _, _, _, _⟩ := startsWith_data_ne (jsTrim l) hd
  cases rest with
  | nil =>
    show (if jsTrim l = "" then st
          else if jsTrim l = "event: block-start" then st
          else processSSEPlainLine st (jsTrim l)) = _
    rw [if_neg h0, if_neg h1, processSSEPlainLine_data st (jsTrim l) hd]
    rfl
  | cons next rest2 =>
    show (if jsTrim l = "" then processSSELines st (next :: rest2)
          else if jsTrim l = "event: block-start" then _
          else processSSELines (processSSEPlainLine st (jsTrim l)) (next :: rest2)) = _
    rw [if_neg h0, if_neg h1, processSSEPlainLine_data st (jsTrim l) hd]

/-- With the suppression flag set, the data branch clears the flag and makes
no other change. -/
theorem dataOrOtherStep_suppress (st : ParserState) (line : String)
    (hj : st.justEndedBlock = true) (hd : jsStartsWith line "data: " = true) :
    dataOrOtherStep st line = { st with justEndedBlock := false } := by
  unfold dataOrOtherStep
  rw [if_pos hd, if_pos hj, startsWith_data_not_complete line hd]
  rfl

/-- C6 (amended): after `event: block-end` the suppression flag discards the
next line that carries a `data: ` prefix, whenever it arrives — exactly one
such line, since the continuation runs with the flag cleared.  (Records that
are not data lines, such as a following event record, are processed normally
and do not clear the flag, as the counterexample shows.) -/
theorem c6_data_suppression_amended (st : ParserState) (l : String) (rest : List String)
    (hj : st.justEndedBlock = true) (hd : jsStartsWith (jsTrim l) "data: " = true) :
    processSSELines st (l :: rest) =
      processSSELines { st with justEndedBlock := false } rest := by
  rw [processSSELines_data_step st l rest hd, dataOrOtherStep_suppress st (jsTrim l) hj hd]

/-- Concrete instantiation of the C6 suppression theorem. -/
theorem c6_data_suppression_witness :
    processSSELines { ParserState.init with justEndedBlock := true } ["data: \"text\""] =
      ParserState.init := by
  have h := c6_data_suppression_amended { ParserState.init with justEndedBlock := true }
    "data: \"text\"" [] rfl rfl
  exact h

/-- C2 counterexample: the tool-output payload parses to an object that
carries an `error` field (with value JSON null), yet the execution is set to
"completed", because the source tests the field's truthiness, not its
presence. -/
theorem c2_error_field_counterexample :
    parseJson (repairToolOutput c2st.currentToolOutput) =
      some (Json.obj [("error", Json.null), ("message", Json.str "m")]) ∧
    getField (Json.obj [("error", Json.null), ("message", Json.str "m")]) "error" =
      some Json.null ∧
    (processSqlOutput c2st).sqlExecutions.map (fun e => e.status) =
      [some SqlStatus.completed] :=
  ⟨rfl, rfl, rfl⟩

/-- C2 (amended): on tool-output close, whenever the repaired buffer parses
as JSON and an execution with the bound id exists in the ledger, that
execution's status is set to "error" iff the payload's `error` field is
present and truthy (otherwise "completed"), its `error` field is set to the
payload's `message` field, and its `results` field to the payload's
`results` field (or the whole payload when that field is absent or falsy). -/
theorem c2_error_status_amended (st : ParserState) (sid : String) (j : Json) (i : Nat)
    (ex : SqlExecution)
    (h1 : st.currentSqlId = some sid) (h2 : sid ≠ "") (h3 : st.currentToolOutput ≠ "")
    (h4 : parseJson (repairToolOutput st.currentToolOutput) = some j)
    (h5 : findIndexById st.sqlExecutions sid = some i)
    (h6 : st.sqlExecutions.get? i = some ex) :
    (processSqlOutput st).sqlExecutions.get? i =
      some { ex with
             results := some (match getField j "results" with
               | some r => if jsTruthy r then r else j
               | none => j),
             status := some (if fieldTruthy j "error" then SqlStatus.error else SqlStatus.completed),
             error := optFieldStr j "message" } := by
  unfold processSqlOutput
  simp only [h1, if_neg (not_or.mpr ⟨h2, h3⟩), h4, h5, h6]
  exact list_get?_set_self (list_get?_some_lt h6)

/-- Concrete instantiation of the C2 status theorem at the claim's error
payload: an "executing" record transitions to "error" with the message. -/
theorem c2_error_status_witness :
    (processSqlOutput c2wst).sqlExecutions.get? 0 =
      some { exQ1 with
             results := some (Json.obj [("error", Json.str "x"), ("message", Json.str "bad column")]),
             status := some SqlStatus.error,
             error := some "bad column" } := by
  have h := c2_error_status_amended c2wst "q1"
    (Json.obj [("error", Json.str "x"), ("message", Json.str "bad column")]) 0 exQ1
    rfl (by decide) (by decide) rfl rfl rfl
  exact h.trans (by rfl)

/-- C4 counterexample: when a delta whose id matches an existing entry is
merged, `originalPurpose` is not overwritten by the delta's value — it is
recomputed from the existing entry — contradicting "all other fields are
overwritten by the delta's". -/
theorem c4_overwrite_counterexample :
    (mergeSqlExecutions [c4ex] [c4d] none).map (fun e => e.originalPurpose) = [some "a"] ∧
    c4d.originalPurpose = some "b" :=
  ⟨rfl, rfl⟩

/-- C4 (amended): merging a delta whose id matches an existing entry keeps
the existing `query` when the delta's is empty after trimming, keeps the
existing `purpose` when the delta's is the generic default and the existing
one is non-empty and not the generic default, takes `threadId` from the
existing entry when non-empty, else from the delta when non-empty, else the
fallback, recomputes `originalPurpose` from the existing entry's
`originalPurpose` (or, when that is empty, its `purpose`), and overwrites
the remaining fields (id, results, timestamp, status, error) with the
delta's. -/
theorem c4_merge_field_rules_amended (L : List SqlExecution) (d : SqlExecution)
    (fb : Option String) (i : Nat) (ex : SqlExecution)
    (h1 : findIndexById L d.id = some i) (h2 : L.get? i = some ex) :
    mergeSqlExecutions L [d] fb = L.set i
      { id := d.id,
        results := d.results, timestamp := d.timestamp, status := d.status, error := d.error,
        query := if jsTrim d.query = "" then ex.query else d.query,
        purpose := if d.purpose = some genericPurpose ∧ strTruthy ex.purpose ∧
                      ex.purpose ≠ some genericPurpose
                   then ex.purpose else d.purpose,
        threadId := jsOrStr ex.threadId (jsOrStr d.threadId fb),
        originalPurpose := jsOrStr ex.originalPurpose ex.purpose } := by
  unfold mergeSqlExecutions
  simp only [List.foldl_cons, List.foldl_nil, mergeStep, h1, h2, mergeOne]

/-- Concrete instantiation of the C4 field-rule theorem at the claim's
resume scenario: the empty-query delta leaves `query` "SELECT 1" and
updates `results`. -/
theorem c4_merge_field_rules_witness :
    mergeSqlExecutions [exQ1] [c4resume] none =
      [{ id := "q1", purpose := some "list", query := "SELECT 1",
         results := some (Json.arr [Json.obj [("a", Json.num 1)]]), timestamp := 2,
         status := some SqlStatus.completed, error := none, threadId := none,
         originalPurpose := some "list" }] := by
  have h := c4_merge_field_rules_amended [exQ1] c4resume none 0 exQ1 rfl rfl
  exact h.trans (by rfl)

/-- C8 counterexample: grouping `[cbA]` yields one single-block text group
with content "a" and the block's own id, but grouping `[cbA, cbB]` yields a
single merged group with content "ab"; the group over the unchanged prefix
is not reproduced. -/
theorem c8_prefix_counterexample :
    (groupConsecutiveBlocks [cbA, cbB]).take (groupConsecutiveBlocks [cbA]).length ≠
      groupConsecutiveBlocks [cbA] := by decide

/-- finalizeCurrentGroup only appends one group to the output. -/
theorem finalizeGroup_append (g : List GroupedContentBlock) (r : RunAcc) :
    ∃ x, finalizeGroup g r = g ++ [x] := by
  unfold finalizeGroup
  split <;> exact ⟨_, rfl⟩

/-- The grouping loop only ever appends to the accumulated group list. -/
theorem groupLoop_extends (xs : List ContentBlock) :
    ∀ (g : List GroupedContentBlock) (c : Option RunAcc),
      ∃ t, finalizeApp (List.foldl groupStep (g, c) xs) = g ++ t := by
  induction xs with
  | nil =>
    intro g c
    cases c with
    | none => exact ⟨[], by simp [finalizeApp]⟩
    | some r =>
      obtain ⟨x, hx⟩ := finalizeGroup_append g r
      exact ⟨[x], by simp [finalizeApp, hx]⟩
  | cons b xs ih =>
    intro g c
    rw [List.foldl_cons]
    cases c with
    | none =>
      simp only [groupStep]
      exact ih g _
    | some r =>
      by_cases hty : r.type = b.type
      · simp only [groupStep, hty, if_true, ite_true]
        exact ih g _
      · simp only [groupStep, hty, if_false, ite_false]
        obtain ⟨x, hx⟩ := finalizeGroup_append g r
        obtain ⟨t, ht⟩ := ih (finalizeGroup g r) (some ⟨b.type, [b], b.timestamp⟩)
        exact ⟨x :: t, by rw [ht, hx]; simp⟩

/-- After consuming a list ending in block `b`, the open run has channel
`b.type`. -/
theorem foldl_last_run_type (xs : List ContentBlock)
    (s : List GroupedContentBlock × Option RunAcc) (b : ContentBlock) :
    ∃ g' bl ts, List.foldl groupStep s (xs ++ [b]) = (g', some ⟨b.type, bl, ts⟩) := by
  rw [List.foldl_append]
  rcases h : List.foldl groupStep s xs with ⟨g1, c1⟩
  simp only [List.foldl_cons, List.foldl_nil]
  cases c1 with
  | none => exact ⟨g1, [b], b.timestamp, rfl⟩
  | some r =>
    by_cases hty : r.type = b.type
    · refine ⟨g1, r.blocks ++ [b],
        if b.timestamp < r.startTimestamp then b.timestamp else r.startTimestamp, ?_⟩
      simp only [groupStep, if_pos hty]
      rw [hty]
    · refine ⟨finalizeGroup g1 r, [b], b.timestamp, ?_⟩
      simp only [groupStep, if_neg hty]

/-- A list with a known last element splits off that element. -/
theorem getLast?_decomp {α : Type} : ∀ {l : List α} {a : α},
    l.getLast? = some a → ∃ l', l = l' ++ [a] := by
  intro l
  induction l with
  | nil => intro a h; simp [List.getLast?] at h
  | cons x xs ih =>
    intro a h
    cases xs with
    | nil =>
      simp [List.getLast?] at h
      exact ⟨[], by rw [h]; rfl⟩
    | cons y ys =>
      rw [List.getLast?_cons_cons] at h
      obtain ⟨l', hl⟩ := ih h
      exact ⟨x :: l', by rw [hl]; rfl⟩

/-- C8 (amended): block grouping is a pure deterministic function, and the
groups over P ++ N reproduce the groups over P as a list prefix whenever P
is empty, N is empty, or the first block of N has a different channel from
the last block of P; a same-channel junction instead extends P's last run
into N (see the counterexample). -/
theorem c8_grouping_prefix_amended (P N : List ContentBlock)
    (h : P = [] ∨ N = [] ∨
      ∃ bp bn, P.getLast? = some bp ∧ N.head? = some bn ∧ bp.type ≠ bn.type) :
    (groupConsecutiveBlocks (P ++ N)).take (groupConsecutiveBlocks P).length =
      groupConsecutiveBlocks P := by
  rcases h with rfl | rfl | ⟨bp, bn, hP, hN, hty⟩
  · simp [groupConsecutiveBlocks, finalizeApp]
  · rw [List.append_nil]
    exact List.take_length _
  · obtain ⟨P', rfl⟩ := getLast?_decomp hP
    cases N with
    | nil => simp at hN
    | cons n N' =>
      rw [List.head?_cons] at hN
      have hbn : bn = n := by injection hN with h'; exact h'.symm
      subst hbn
      obtain ⟨g1, bl, ts, hfold⟩ := foldl_last_run_type P' ([], none) bp
      have hstep : groupStep (g1, some ⟨bp.type, bl, ts⟩) bn =
          (finalizeGroup g1 ⟨bp.type, bl, ts⟩, some ⟨bn.type, [bn], bn.timestamp⟩) := by
        simp only [groupStep, if_neg hty]
      obtain ⟨t, htail⟩ := groupLoop_extends N' (finalizeGroup g1 ⟨bp.type, bl, ts⟩)
        (some ⟨bn.type, [bn], bn.timestamp⟩)
      have key : groupConsecutiveBlocks ((P' ++ [bp]) ++ (bn :: N')) =
          groupConsecutiveBlocks (P' ++ [bp]) ++ t := by
        unfold groupConsecutiveBlocks
        rw [List.foldl_append, hfold, List.foldl_cons, hstep, htail]
        rfl
      rw [key]
      exact List.take_left _ _

/-- Concrete instantiation of the C8 prefix theorem at a thinking-then-text
junction. -/
theorem c8_grouping_prefix_witness :
    (groupConsecutiveBlocks ([cbTh] ++ [cbB])).take (groupConsecutiveBlocks [cbTh]).length =
      groupConsecutiveBlocks [cbTh] :=
  c8_grouping_prefix_amended [cbTh] [cbB]
    (Or.inr (Or.inr ⟨cbTh, cbB, rfl, rfl, by decide⟩))

/-- C9 counterexample: a chunk that closes a tool-output block over a
malformed buffer does not leave the previously accumulated state retained —
the "executing" record created by the first chunk transitions to "error"
with the generic parse-failure message. -/
theorem c9_tool_output_error_counterexample :
    (parseChunk ParserState.init c9chunkA).sqlExecutions.map (fun e => (e.status, e.error)) =
      [(some SqlStatus.executing, none)] ∧
    (parseChunk (parseChunk ParserState.init c9chunkA) c9chunkB).sqlExecutions.map
      (fun e => (e.status, e.error)) =
      [(some SqlStatus.error, some "Failed to parse SQL output response")] :=
  ⟨rfl, rfl⟩

/-- Characters of a prefix are characters of the string. -/
theorem startsWith_get? {s p : String} (h : jsStartsWith s p = true) {n : Nat}
    (hn : n < p.data.length) : s.data.get? n = p.data.get? n := by
  obtain ⟨r, hr⟩ := jsStartsWith_data h
  rw [hr, List.get?_append hn]

/-- A line opening a JSON envelope is neither blank nor the DONE sentinel. -/
theorem startsWith_brace_ne_done (t : String)
    (hd : jsStartsWith t "data: \x7b" = true) :
    ¬(t = "" ∨ t = "data: [DONE]") := by
  have h6 := startsWith_get? hd (n := 6) (by decide)
  rintro (he | he) <;> rw [he] at h6 <;> exact absurd h6 (by decide)

/-- String append with the empty string. -/
theorem string_append_empty (s : String) : s ++ "" = s := by
  cases s with
  | mk data =>
    show String.mk (data ++ []) = String.mk data
    rw [List.append_nil]

/-- A malformed data fragment on a content or tool-input channel leaves the
state unchanged (the source catches the JSON error; on the tool-input side
the empty fallback fragment is appended, which is a no-op). -/
theorem dataOrOtherStep_malformed (st : ParserState) (line : String)
    (hbt : st.currentBlockType = some BlockType.thinking ∨
           st.currentBlockType = some BlockType.text ∨
           st.currentBlockType = some BlockType.toolInput)
    (hj : st.justEndedBlock = false)
    (hd : jsStartsWith line "data: " = true)
    (hp : parseJson (jsDrop line 6) = none) :
    dataOrOtherStep st line = st := by
  unfold dataOrOtherStep
  have hc := startsWith_data_not_complete line hd
  have hjj : ¬ st.justEndedBlock = true := by simp [hj]
  rw [hc, if_pos hd, if_neg hjj]
  rcases hbt with h | h | h
  · simp only [h, hp, Bool.false_eq_true, if_false, ite_false]
  · simp only [h, hp, Bool.false_eq_true, if_false, ite_false]
  · simp only [h, hp, string_append_empty, Bool.false_eq_true, if_false, ite_false]
    rw [← h]

/-- C9 (amended): the embedded parseChunk is built from total functions, so
it terminates on every input; a malformed envelope line is skipped with the
state fully retained, a malformed data fragment on the reasoning, narrative
or tool-input channel is skipped with the state fully retained and
processing resumes at the next record; but a tool-output buffer that fails
to parse at block close transitions the bound execution to status "error"
with the generic parse-failure message instead of leaving state unchanged. -/
theorem c9_malformed_skip_amended :
    (∀ (st : ParserState) (allLines rest : List String) (l : String),
       jsIncludes (jsTrim l) "event: __interrupt__" = false →
       jsStartsWith (jsTrim l) "data: \x7b" = true →
       parseJson (jsDrop (jsTrim l) 6) = none →
       parseChunkLines st allLines (l :: rest) = parseChunkLines st allLines rest) ∧
    (∀ (st : ParserState) (l : String) (rest : List String),
       (st.currentBlockType = some BlockType.thinking ∨
        st.currentBlockType = some BlockType.text ∨
        st.currentBlockType = some BlockType.toolInput) →
       st.justEndedBlock = false →
       jsStartsWith (jsTrim l) "data: " = true →
       parseJson (jsDrop (jsTrim l) 6) = none →
       processSSELines st (l :: rest) = processSSELines st rest) ∧
    (∀ (st : ParserState) (sid : String) (i : Nat) (ex : SqlExecution),
       st.currentSqlId = some sid → sid ≠ "" → st.currentToolOutput ≠ "" →
       parseJson (repairToolOutput st.currentToolOutput) = none →
       findIndexById st.sqlExecutions sid = some i →
       st.sqlExecutions.get? i = some ex →
       (processSqlOutput st).sqlExecutions.get? i =
         some { ex with status := some SqlStatus.error,
                        error := some "Failed to parse SQL output response" }) := by
  refine ⟨?_, ?_, ?_⟩
  · intro st allLines rest l hni hd hp
    have hne := startsWith_brace_ne_done (jsTrim l) hd
    simp only [parseChunkLines]
    rw [if_neg hne, hni]
    simp only [Bool.false_eq_true, if_false, ite_false, hd, if_true, ite_true, hp]
  · intro st l rest hbt hj hd hp
    rw [processSSELines_data_step st l rest hd,
        dataOrOtherStep_malformed st (jsTrim l) hbt hj hd hp]
  · intro st sid i ex h1 h2 h3 hp h5 h6
    unfold processSqlOutput
    simp only [h1, if_neg (not_or.mpr ⟨h2, h3⟩), hp, h5, h6]
    exact list_get?_set_self (list_get?_some_lt h6)

/-- Concrete instantiations of the three parts of the C9 theorem. -/
theorem c9_malformed_skip_witness :
    parseChunkLines ParserState.init ["data: \x7bnotjson"] ["data: \x7bnotjson"] =
      parseChunkLines ParserState.init ["data: \x7bnotjson"] [] ∧
    processSSELines { ParserState.init with currentBlockType := some BlockType.text }
        ["data: notjson"] =
      processSSELines { ParserState.init with currentBlockType := some BlockType.text } [] ∧
    (processSqlOutput c9wst).sqlExecutions.get? 0 =
      some { exQ1 with status := some SqlStatus.error,
                       error := some "Failed to parse SQL output response" } :=
  ⟨c9_malformed_skip_amended.1 ParserState.init ["data: \x7bnotjson"] [] "data: \x7bnotjson"
     rfl rfl rfl,
   c9_malformed_skip_amended.2.1 { ParserState.init with currentBlockType := some BlockType.text }
     "data: notjson" [] (Or.inr (Or.inl rfl)) rfl rfl rfl,
   c9_malformed_skip_amended.2.2 c9wst "q1" 0 exQ1 rfl (by decide) (by decide) rfl rfl rfl⟩

/-- JS or on equal arguments. -/
theorem jsOrStr_self (a : Option String) : jsOrStr a a = a := by
  unfold jsOrStr
  split <;> rfl

/-- JS or with a truthy left argument. -/
theorem jsOrStr_of_truthy {a : Option String} (h : strTruthy a = true) (b : Option String) :
    jsOrStr a b = a := by
  unfold jsOrStr
  rw [if_pos h]

/-- JS or with a falsy left argument. -/
theorem jsOrStr_of_falsy {a : Option String} (h : strTruthy a = false) (b : Option String) :
    jsOrStr a b = b := by
  unfold jsOrStr
  rw [h]
  simp

/-- Unfolding of `lastD` over a cons. -/
theorem lastD_cons {α : Type} (x a : α) (l : List α) : lastD x (a :: l) = lastD a l := rfl

/-- The last element of a non-empty list ignores the default. -/
theorem lastD_concat {α : Type} (x a : α) (l : List α) : lastD x (l ++ [a]) = a := by
  unfold lastD
  rw [List.foldl_append]
  rfl

/-- Unfolding of the query fold over a trailing delta. -/
theorem qFold_concat (x q : String) (qs : List String) :
    qFold x (qs ++ [q]) = qStep (qFold x qs) q := by
  unfold qFold
  rw [List.foldl_append]
  rfl

/-- Replaying one more query delta over a query fixed point. -/
theorem qR3 {x q : String} {qs : List String} (hfix : qFold x qs = x) :
    qFold (qStep x q) (qs ++ [q]) = qStep x q := by
  by_cases hq : jsTrim q = ""
  · have e1 : qStep x q = x := by unfold qStep; exact if_pos hq
    rw [e1, qFold_concat, hfix, e1]
  · have e : ∀ z, qStep z q = q := fun z => by unfold qStep; exact if_neg hq
    rw [e x, qFold_concat, e (qFold q qs)]

/-- The purpose rule with a non-generic delta purpose keeps the delta's. -/
theorem pStep_ne {p q : Option String} (h : q ≠ some genericPurpose) : pStepQE p q = q := by
  unfold pStepQE
  rw [if_neg (by intro hc; exact h hc.1)]

/-- The purpose rule over a generic delta purpose and a trivial existing
purpose yields the generic purpose. -/
theorem pStep_QE_trivial {p : Option String}
    (h : ¬(strTruthy p = true ∧ p ≠ some genericPurpose)) :
    pStepQE p (some genericPurpose) = some genericPurpose := by
  unfold pStepQE
  rw [if_neg (by intro hc; exact h ⟨hc.2.1, hc.2.2⟩)]

/-- The purpose rule over a generic delta purpose keeps a non-trivial
existing purpose. -/
theorem pStep_QE_nontrivial {p : Option String} (h1 : strTruthy p = true)
    (h2 : p ≠ some genericPurpose) : pStepQE p (some genericPurpose) = p := by
  unfold pStepQE
  rw [if_pos ⟨rfl, h1, h2⟩]

/-- Unfolding of the purpose fold over a trailing delta. -/
theorem pFold_concat (p q : Option String) (ps : List (Option String)) :
    pFold p (ps ++ [q]) = pStepQE (pFold p ps) q := by
  unfold pFold
  rw [List.foldl_append]
  rfl

/-- When some delta purpose is non-generic, the purpose fold does not depend
on its starting point. -/
theorem pFold_indep (ps : List (Option String))
    (h : ∃ q ∈ ps, q ≠ some genericPurpose) (x y : Option String) :
    pFold x ps = pFold y ps := by
  induction ps generalizing x y with
  | nil => simp at h
  | cons q ps ih =>
    by_cases hq : q = some genericPurpose
    · subst hq
      obtain ⟨q', hq', hne⟩ := h
      rcases List.mem_cons.mp hq' with rfl | hmem
      · exact absurd rfl hne
      · show pFold (pStepQE x (some genericPurpose)) ps =
          pFold (pStepQE y (some genericPurpose)) ps
        exact ih ⟨q', hmem, hne⟩ _ _
    · have e : ∀ z, pStepQE z q = q := fun z => pStep_ne hq
      show pFold (pStepQE x q) ps = pFold (pStepQE y q) ps
      rw [e x, e y]

/-- The purpose fold over all-generic deltas keeps the generic purpose. -/
theorem pFold_allQE (ps : List (Option String))
    (h : ∀ q ∈ ps, q = some genericPurpose) :
    pFold (some genericPurpose) ps = some genericPurpose := by
  induction ps with
  | nil => rfl
  | cons q ps ih =>
    have hq := h q (List.mem_cons_self q ps)
    subst hq
    show pFold (pStepQE (some genericPurpose) (some genericPurpose)) ps = some genericPurpose
    rw [pStep_QE_trivial (by rintro ⟨_, h2⟩; exact h2 rfl)]
    exact ih (fun r hr => h r (List.mem_cons_of_mem _ hr))

/-- Replaying one more purpose delta over a purpose fixed point. -/
theorem pR3 {p q : Option String} {ps : List (Option String)}
    (hfix : pFold p ps = p) :
    pFold (pStepQE p q) (ps ++ [q]) = pStepQE p q := by
  by_cases hq : q = some genericPurpose
  · subst hq
    by_cases hnt : strTruthy p = true ∧ p ≠ some genericPurpose
    · rw [pStep_QE_nontrivial hnt.1 hnt.2, pFold_concat, hfix,
        pStep_QE_nontrivial hnt.1 hnt.2]
    · rw [pStep_QE_trivial hnt, pFold_concat]
      by_cases hex : ∃ r ∈ ps, r ≠ some genericPurpose
      · rw [pFold_indep ps hex (some genericPurpose) p, hfix]
        exact pStep_QE_trivial hnt
      · push_neg at hex
        rw [pFold_allQE ps hex]
        exact pStep_QE_trivial (by rintro ⟨_, h2⟩; exact h2 rfl)
  · have e : ∀ z, pStepQE z q = q := fun z => pStep_ne hq
    rw [e p, pFold_concat, e (pFold q ps)]

/-- Unfolding of the threadId fold over a trailing delta. -/
theorem tFold_concat (fb t d : Option String) (ts : List (Option String)) :
    tFold fb t (ts ++ [d]) = tStep fb (tFold fb t ts) d := by
  unfold tFold
  rw [List.foldl_append]
  rfl

/-- A truthy threadId is kept by the whole fold. -/
theorem tFold_of_truthy {fb t : Option String} (h : strTruthy t = true)
    (ts : List (Option String)) : tFold fb t ts = t := by
  induction ts with
  | nil => rfl
  | cons d ts ih =>
    show tFold fb (tStep fb t d) ts = t
    have e : tStep fb t d = t := by unfold tStep; exact jsOrStr_of_truthy h _
    rw [e]
    exact ih

/-- Falsy starting points agree on a non-empty threadId fold. -/
theorem tFold_falsy_agree {fb x y : Option String} (hx : strTruthy x = false)
    (hy : strTruthy y = false) (d : Option String) (ts : List (Option String)) :
    tFold fb x (d :: ts) = tFold fb y (d :: ts) := by
  have e : ∀ z, strTruthy z = false → tStep fb z d = jsOrStr d fb := fun z hz => by
    unfold tStep; exact jsOrStr_of_falsy hz _
  show tFold fb (tStep fb x d) ts = tFold fb (tStep fb y d) ts
  rw [e x hx, e y hy]

/-- Replaying one more threadId delta over a threadId fixed point. -/
theorem tR3 {fb t d : Option String} {ts : List (Option String)}
    (hfix : tFold fb t ts = t) :
    tFold fb (tStep fb t d) (ts ++ [d]) = tStep fb t d := by
  rw [tFold_concat]
  by_cases ht : strTruthy t = true
  · have e1 : tStep fb t d = t := by unfold tStep; exact jsOrStr_of_truthy ht _
    rw [e1, hfix, e1]
  · have ht' : strTruthy t = false := Bool.eq_false_iff.mpr ht
    have e1 : tStep fb t d = jsOrStr d fb := by unfold tStep; exact jsOrStr_of_falsy ht' _
    by_cases hu : strTruthy (jsOrStr d fb) = true
    · rw [e1, tFold_of_truthy hu]
      show tStep fb (jsOrStr d fb) d = jsOrStr d fb
      unfold tStep
      exact jsOrStr_self _
    · have hu' : strTruthy (jsOrStr d fb) = false := Bool.eq_false_iff.mpr hu
      cases ts with
      | nil =>
        rw [e1]
        show tStep fb (jsOrStr d fb) d = jsOrStr d fb
        unfold tStep
        exact jsOrStr_self _
      | cons d1 ts1 =>
        rw [e1, tFold_falsy_agree hu' ht' d1 ts1, hfix, e1]

/-- The first component of the joint purpose fold is the purpose fold. -/
theorem poFold_fst (ps : List (Option String)) :
    ∀ x : Option String × Option String, (poFold x ps).1 = pFold x.1 ps := by
  induction ps with
  | nil => intro x; rfl
  | cons q ps ih =>
    intro x
    show (poFold (poStep x q) ps).1 = pFold (pStepQE x.1 q) ps
    rw [ih (poStep x q)]
    rfl

/-- A truthy originalPurpose is kept by the whole joint fold. -/
theorem poFold_snd_truthy (ps : List (Option String)) :
    ∀ x : Option String × Option String, strTruthy x.2 = true →
      (poFold x ps).2 = x.2 := by
  induction ps with
  | nil => intro x _; rfl
  | cons q ps ih =>
    intro x h
    have e : (poStep x q).2 = x.2 := jsOrStr_of_truthy h x.1
    have h2 : strTruthy (poStep x q).2 = true := by rw [e]; exact h
    show (poFold (poStep x q) ps).2 = x.2
    rw [ih (poStep x q) h2, e]

/-- Replaying one more purpose delta over a fixed point of the joint
purpose/originalPurpose fold, for an entry with a truthy purpose or
originalPurpose. -/
theorem poR3 {p o q : Option String} {ps : List (Option String)}
    (htr : strTruthy (jsOrStr o p) = true)
    (hfix : poFold (p, o) ps = (p, o)) :
    poFold (poStep (p, o) q) (ps ++ [q]) = poStep (p, o) q := by
  have hfst : pFold p ps = p := by
    have h := congrArg Prod.fst hfix
    rwa [poFold_fst] at h
  apply Prod.ext
  · rw [poFold_fst]
    exact pR3 hfst
  · exact poFold_snd_truthy (ps ++ [q]) (poStep (p, o) q) htr

/-- The per-entry merge fold acts independently on each field: every field
of the folded entry is the corresponding field fold over the deltas. -/
theorem mergeFold_proj (fb : Option String) (ds : List SqlExecution) :
    ∀ ex : SqlExecution, mergeFold fb ex ds =
      { id := lastD ex.id (ds.map (fun d => d.id)),
        purpose := (poFold (ex.purpose, ex.originalPurpose) (ds.map (fun d => d.purpose))).1,
        query := qFold ex.query (ds.map (fun d => d.query)),
        results := lastD ex.results (ds.map (fun d => d.results)),
        timestamp := lastD ex.timestamp (ds.map (fun d => d.timestamp)),
        status := lastD ex.status (ds.map (fun d => d.status)),
        error := lastD ex.error (ds.map (fun d => d.error)),
        threadId := tFold fb ex.threadId (ds.map (fun d => d.threadId)),
        originalPurpose :=
          (poFold (ex.purpose, ex.originalPurpose) (ds.map (fun d => d.purpose))).2 } := by
  induction ds with
  | nil => intro ex; rfl
  | cons d ds ih =>
    intro ex
    show mergeFold fb (mergeOne ex d fb) ds = _
    rw [ih (mergeOne ex d fb)]
    rfl

/-- Replaying one more delta over a fixed point of the per-entry merge fold,
for an entry with a truthy purpose or originalPurpose. -/
theorem mergeOne_replay (fb : Option String) (ex d : SqlExecution) (ds : List SqlExecution)
    (hinv : strTruthy (jsOrStr ex.originalPurpose ex.purpose) = true)
    (hfix : mergeFold fb ex ds = ex) :
    mergeFold fb (mergeOne ex d fb) (ds ++ [d]) = mergeOne ex d fb := by
  rw [mergeFold_proj] at hfix
  have hq : qFold ex.query (ds.map (fun d => d.query)) = ex.query :=
    congrArg SqlExecution.query hfix
  have hpo : poFold (ex.purpose, ex.originalPurpose) (ds.map (fun d => d.purpose)) =
      (ex.purpose, ex.originalPurpose) :=
    Prod.ext (congrArg SqlExecution.purpose hfix) (congrArg SqlExecution.originalPurpose hfix)
  have ht : tFold fb ex.threadId (ds.map (fun d => d.threadId)) = ex.threadId :=
    congrArg SqlExecution.threadId hfix
  rw [mergeFold_proj]
  simp only [List.map_append, List.map_cons, List.map_nil]
  apply SqlExecution.ext
  · exact lastD_concat _ _ _
  · show (poFold (poStep (ex.purpose, ex.originalPurpose) d.purpose)
        (ds.map (fun e => e.purpose) ++ [d.purpose])).1 =
      (poStep (ex.purpose, ex.originalPurpose) d.purpose).1
    exact congrArg Prod.fst (poR3 hinv hpo)
  · show qFold (qStep ex.query d.query) (ds.map (fun e => e.query) ++ [d.query]) =
      qStep ex.query d.query
    exact qR3 hq
  · exact lastD_concat _ _ _
  · exact lastD_concat _ _ _
  · exact lastD_concat _ _ _
  · exact lastD_concat _ _ _
  · show tFold fb (tStep fb ex.threadId d.threadId)
        (ds.map (fun e => e.threadId) ++ [d.threadId]) =
      tStep fb ex.threadId d.threadId
    exact tR3 ht
  · show (poFold (poStep (ex.purpose, ex.originalPurpose) d.purpose)
        (ds.map (fun e => e.purpose) ++ [d.purpose])).2 =
      (poStep (ex.purpose, ex.originalPurpose) d.purpose).2
    exact congrArg Prod.snd (poR3 hinv hpo)

/-- Re-merging a delta onto the entry it just appended leaves it unchanged. -/
theorem mergeOne_newEntry_self (fb : Option String) (d : SqlExecution) :
    mergeOne (newEntry d fb) d fb = newEntry d fb := by
  apply SqlExecution.ext
  · rfl
  · show pStepQE d.purpose d.purpose = d.purpose
    by_cases hq : d.purpose = some genericPurpose
    · rw [hq]
      exact pStep_QE_trivial (by rintro ⟨_, h2⟩; exact h2 rfl)
    · exact pStep_ne hq
  · show (if jsTrim d.query = "" then d.query else d.query) = d.query
    exact ite_self _
  · rfl
  · rfl
  · rfl
  · rfl
  · show jsOrStr (jsOrStr d.threadId fb) (jsOrStr d.threadId fb) = jsOrStr d.threadId fb
    exact jsOrStr_self _
  · show jsOrStr d.purpose d.purpose = d.purpose
    exact jsOrStr_self _

/-- A found index points at an entry with the sought id. -/
theorem findIndexById_some {M : List SqlExecution} {i : String} :
    ∀ {k : Nat}, findIndexById M i = some k → ∃ e, M.get? k = some e ∧ e.id = i := by
  induction M with
  | nil => intro k h; simp [findIndexById] at h
  | cons e rest ih =>
    intro k h
    unfold findIndexById at h
    by_cases he : e.id = i
    · rw [if_pos he] at h
      injection h with h
      subst h
      exact ⟨e, rfl, he⟩
    · rw [if_neg he] at h
      cases hf : findIndexById rest i with
      | none => rw [hf] at h; simp at h
      | some m =>
        rw [hf, Option.map_some'] at h
        injection h with h
        subst h
        obtain ⟨e', h1, h2⟩ := ih hf
        exact ⟨e', by rw [List.get?_cons_succ]; exact h1, h2⟩

/-- findIndexById only looks at the entries' ids. -/
theorem findIndexById_congr {M N : List SqlExecution}
    (h : M.map (fun e => e.id) = N.map (fun e => e.id)) (i : String) :
    findIndexById M i = findIndexById N i := by
  induction M generalizing N with
  | nil => cases N with
    | nil => rfl
    | cons f rest2 => simp at h
  | cons e rest ih =>
    cases N with
    | nil => simp at h
    | cons f rest2 =>
      simp only [List.map_cons, List.cons.injEq] at h
      obtain ⟨h1, h2⟩ := h
      unfold findIndexById
      rw [h1, ih h2]

/-- Writing back a value already at a position leaves the list unchanged. -/
theorem list_set_same {α : Type} : ∀ {l : List α} {k : Nat} {a : α},
    l.get? k = some a → l.set k a = l := by
  intro l
  induction l with
  | nil => intro k a h; simp [List.get?] at h
  | cons x xs ih =>
    intro k a h
    cases k with
    | zero =>
      injection h with h
      rw [← h]
      rfl
    | succ m =>
      rw [List.get?_cons_succ] at h
      show x :: xs.set m a = x :: xs
      rw [ih h]

/-- Setting a position to an entry with the same id preserves the id map. -/
theorem map_id_set {M : List SqlExecution} {k : Nat} {e x : SqlExecution}
    (hk : M.get? k = some e) (hx : x.id = e.id) :
    (M.set k x).map (fun e => e.id) = M.map (fun e => e.id) := by
  rw [List.map_set]
  apply list_set_same
  rw [List.get?_map, hk, Option.map_some', hx]

/-- findIndexById over an appended singleton. -/
theorem findIndexById_append {n : SqlExecution} (i : String) :
    ∀ M : List SqlExecution,
      findIndexById (M ++ [n]) i =
        match findIndexById M i with
        | some k => some k
        | none => if n.id = i then some M.length else none := by
  intro M
  induction M with
  | nil =>
    show findIndexById [n] i = _
    unfold findIndexById
    by_cases h : n.id = i <;> simp [h, findIndexById]
  | cons e rest ih =>
    show findIndexById (e :: (rest ++ [n])) i = _
    unfold findIndexById
    by_cases he : e.id = i
    · simp [he]
    · simp only [he, if_false, ite_false, ih]
      cases hf : findIndexById rest i with
      | some m => simp [hf]
      | none => by_cases hn : n.id = i <;> simp [hf, hn, List.length_cons]

/-- The merge loop body in the update case. -/
theorem mergeStep_update {fb : Option String} {M : List SqlExecution} {d : SqlExecution}
    {k : Nat} {e : SqlExecution} (h1 : findIndexById M d.id = some k)
    (h2 : M.get? k = some e) :
    mergeStep fb M d = M.set k (mergeOne e d fb) := by
  unfold mergeStep
  simp only [h1, h2]

/-- The merge loop body in the append case. -/
theorem mergeStep_append {fb : Option String} {M : List SqlExecution} {d : SqlExecution}
    (h : findIndexById M d.id = none) :
    mergeStep fb M d = M ++ [newEntry d fb] := by
  unfold mergeStep
  rw [h]

/-- Pointwise id agreement lifts to the id maps. -/
theorem map_id_of_pointwise {M N : List SqlExecution}
    (h : ∀ k, (M.get? k).map (fun e => e.id) = (N.get? k).map (fun e => e.id)) :
    M.map (fun e => e.id) = N.map (fun e => e.id) := by
  apply List.ext
  intro k
  rw [List.get?_map, List.get?_map]
  exact h k

/-- Second pass of the merge: replaying a batch over a ledger whose entries
are fixed points of their targeted delta folds reproduces the ledger. -/
theorem merge_second_pass (fb : Option String) :
    ∀ (B M N : List SqlExecution),
      (∀ k, (M.get? k).map (fun e => e.id) = (N.get? k).map (fun e => e.id)) →
      (∀ d ∈ B, (findIndexById M d.id).isSome = true) →
      (∀ k eM eN, M.get? k = some eM → N.get? k = some eN →
        mergeFold fb eN (deltasFor M k B) = eM) →
      List.foldl (mergeStep fb) N B = M := by
  intro B
  induction B with
  | nil =>
    intro M N hids _ hfix
    show N = M
    apply List.ext
    intro k
    cases hM : M.get? k with
    | none =>
      have hh := hids k
      rw [hM] at hh
      cases hN : N.get? k with
      | none => rfl
      | some eN => rw [hN] at hh; simp at hh
    | some eM =>
      have hh := hids k
      rw [hM] at hh
      cases hN : N.get? k with
      | none => rw [hN] at hh; simp at hh
      | some eN =>
        have heq : eN = eM := hfix k eM eN hM hN
        rw [heq]
  | cons d B' ih =>
    intro M N hids hpres hfix
    have hd := hpres d (List.mem_cons_self d B')
    cases hk0 : findIndexById M d.id with
    | none => rw [hk0] at hd; simp at hd
    | some k0 =>
      obtain ⟨eM0, hM0, hMid⟩ := findIndexById_some hk0
      have hh := hids k0
      rw [hM0] at hh
      cases hN0 : N.get? k0 with
      | none => rw [hN0] at hh; simp at hh
      | some eN0 =>
        rw [hN0, Option.map_some', Option.map_some'] at hh
        injection hh with hh
        have hfibN : findIndexById N d.id = some k0 := by
          rw [← findIndexById_congr (map_id_of_pointwise hids)]
          exact hk0
        rw [List.foldl_cons, mergeStep_update hfibN hN0]
        apply ih M (N.set k0 (mergeOne eN0 d fb))
        · intro k
          by_cases hkk : k = k0
          · subst hkk
            rw [list_get?_set_self (list_get?_some_lt hN0), hM0, Option.map_some',
              Option.map_some', hMid]
            rfl
          · rw [list_get?_set_ne N _ (fun h => hkk h.symm)]
            exact hids k
        · intro d' hd'
          exact hpres d' (List.mem_cons_of_mem _ hd')
        · intro k eM eN hMk hNk
          by_cases hkk : k = k0
          · subst hkk
            rw [list_get?_set_self (list_get?_some_lt hN0)] at hNk
            injection hNk with hNk
            rw [hM0] at hMk
            injection hMk with hMk
            have hcons : deltasFor M k (d :: B') = d :: deltasFor M k B' := by
              unfold deltasFor
              rw [List.filter_cons_of_pos (by simp [hk0])]
            have hfull := hfix k eM0 eN0 hM0 hN0
            rw [hcons] at hfull
            rw [← hNk, ← hMk]
            exact hfull
          · rw [list_get?_set_ne N _ (fun h => hkk h.symm)] at hNk
            have hdel : deltasFor M k (d :: B') = deltasFor M k B' := by
              unfold deltasFor
              rw [List.filter_cons_of_neg (by simp [hk0]; exact fun h => hkk h.symm)]
            rw [← hdel]
            exact hfix k eM eN hMk hNk

/-- First pass of the merge: folding a batch over a ledger preserves the
purpose invariant, makes every processed delta's id present, and leaves
every entry a fixed point of the fold of the deltas that target it. -/
theorem merge_first_pass (fb : Option String) :
    ∀ (todo done M : List SqlExecution),
      (∀ e ∈ M, strTruthy (jsOrStr e.originalPurpose e.purpose) = true) →
      (∀ d ∈ todo, strTruthy d.purpose = true) →
      (∀ d ∈ done, (findIndexById M d.id).isSome = true) →
      (∀ k e, M.get? k = some e → mergeFold fb e (deltasFor M k done) = e) →
      (∀ e ∈ List.foldl (mergeStep fb) M todo,
         strTruthy (jsOrStr e.originalPurpose e.purpose) = true) ∧
      (∀ d ∈ done ++ todo,
         (findIndexById (List.foldl (mergeStep fb) M todo) d.id).isSome = true) ∧
      (∀ k e, (List.foldl (mergeStep fb) M todo).get? k = some e →
         mergeFold fb e (deltasFor (List.foldl (mergeStep fb) M todo) k (done ++ todo)) = e) := by
  intro todo
  induction todo with
  | nil =>
    intro done M hInv hB hpres hfix
    simp only [List.foldl_nil, List.append_nil]
    exact ⟨hInv, hpres, hfix⟩
  | cons d todo ih =>
    intro done M hInv hB hpres hfix
    have hBd : strTruthy d.purpose = true := hB d (List.mem_cons_self d todo)
    have hB' : ∀ d' ∈ todo, strTruthy d'.purpose = true :=
      fun d' hd' => hB d' (List.mem_cons_of_mem _ hd')
    have hmain : (∀ e ∈ mergeStep fb M d,
          strTruthy (jsOrStr e.originalPurpose e.purpose) = true) ∧
        (∀ d' ∈ done ++ [d], (findIndexById (mergeStep fb M d) d'.id).isSome = true) ∧
        (∀ k e, (mergeStep fb M d).get? k = some e →
          mergeFold fb e (deltasFor (mergeStep fb M d) k (done ++ [d])) = e) := by
      cases hk0 : findIndexById M d.id with
      | some k0 =>
        obtain ⟨e0, hM0, hid0⟩ := findIndexById_some hk0
        have hstep : mergeStep fb M d = M.set k0 (mergeOne e0 d fb) :=
          mergeStep_update hk0 hM0
        have hxid : (mergeOne e0 d fb).id = e0.id := hid0.symm
        have hmap : (mergeStep fb M d).map (fun e => e.id) = M.map (fun e => e.id) := by
          rw [hstep]
          exact map_id_set hM0 hxid
        have hfib : ∀ i, findIndexById (mergeStep fb M d) i = findIndexById M i :=
          findIndexById_congr hmap
        have hInvE0 : strTruthy (jsOrStr e0.originalPurpose e0.purpose) = true :=
          hInv e0 (List.get?_mem hM0)
        have hInvUpd : strTruthy (jsOrStr (mergeOne e0 d fb).originalPurpose
            (mergeOne e0 d fb).purpose) = true := by
          show strTruthy (jsOrStr (jsOrStr e0.originalPurpose e0.purpose)
            (pStepQE e0.purpose d.purpose)) = true
          rw [jsOrStr_of_truthy hInvE0]
          exact hInvE0
        refine ⟨?_, ?_, ?_⟩
        · intro e he
          rw [hstep] at he
          rcases List.mem_or_eq_of_mem_set he with he | rfl
          · exact hInv e he
          · exact hInvUpd
        · intro d' hd'
          rw [hfib]
          rcases List.mem_append.mp hd' with h | h
          · exact hpres d' h
          · rcases List.mem_singleton.mp h with rfl
            rw [hk0]
            rfl
        · intro k e hke
          have hdelta : ∀ B0, deltasFor (mergeStep fb M d) k B0 = deltasFor M k B0 := by
            intro B0
            unfold deltasFor
            apply List.filter_congr
            intro x _
            rw [hfib]
          rw [hdelta]
          unfold deltasFor
          rw [List.filter_append]
          by_cases hkk : k = k0
          · subst hkk
            rw [hstep, list_get?_set_self (list_get?_some_lt hM0)] at hke
            injection hke with hke
            subst hke
            have hsing : List.filter
                (fun d' => decide (findIndexById M d'.id = some k)) [d] = [d] := by
              rw [List.filter_cons_of_pos (by simp [hk0])]
              rfl
            rw [hsing]
            exact mergeOne_replay fb e0 d _ hInvE0 (hfix k e0 hM0)
          · rw [hstep, list_get?_set_ne M _ (fun h => hkk h.symm)] at hke
            have hsing : List.filter
                (fun d' => decide (findIndexById M d'.id = some k)) [d] = [] := by
              rw [List.filter_cons_of_neg (by simp [hk0]; exact fun h => hkk h.symm),
                List.filter_nil]
            rw [hsing, List.append_nil]
            exact hfix k e hke
      | none =>
        have hstep : mergeStep fb M d = M ++ [newEntry d fb] := mergeStep_append hk0
        have hfib : ∀ i, findIndexById (mergeStep fb M d) i =
            match findIndexById M i with
            | some k => some k
            | none => if d.id = i then some M.length else none := by
          intro i
          rw [hstep, findIndexById_append]
          rfl
        have hInvNew : strTruthy (jsOrStr (newEntry d fb).originalPurpose
            (newEntry d fb).purpose) = true := by
          show strTruthy (jsOrStr d.purpose d.purpose) = true
          rw [jsOrStr_self]
          exact hBd
        refine ⟨?_, ?_, ?_⟩
        · intro e he
          rw [hstep] at he
          rcases List.mem_append.mp he with he | he
          · exact hInv e he
          · rcases List.mem_singleton.mp he with rfl
            exact hInvNew
        · intro d' hd'
          rw [hfib]
          rcases List.mem_append.mp hd' with h | h
          · have hxp := hpres d' h
            cases hf : findIndexById M d'.id with
            | none => rw [hf] at hxp; simp at hxp
            | some kx => simp [hf]
          · rcases List.mem_singleton.mp h with rfl
            rw [hk0]
            simp
        · intro k e hke
          rw [hstep] at hke
          by_cases hlt : k < M.length
          · rw [List.get?_append hlt] at hke
            have hdel : deltasFor (mergeStep fb M d) k (done ++ [d]) =
                deltasFor M k done := by
              unfold deltasFor
              rw [List.filter_append]
              have h2 : List.filter
                  (fun d' => decide (findIndexById (mergeStep fb M d) d'.id = some k)) [d] =
                  [] := by
                rw [List.filter_cons_of_neg (by simp [hfib, hk0]; omega), List.filter_nil]
              have h1 : List.filter
                  (fun d' => decide (findIndexById (mergeStep fb M d) d'.id = some k)) done =
                  List.filter (fun d' => decide (findIndexById M d'.id = some k)) done := by
                apply List.filter_congr
                intro x hx
                have hxp := hpres x hx
                cases hf : findIndexById M x.id with
                | none => rw [hf] at hxp; simp at hxp
                | some kx => simp [hfib, hf]
              rw [h1, h2, List.append_nil]
            rw [hdel]
            exact hfix k e hke
          · by_cases heq : k = M.length
            · subst heq
              rw [List.get?_concat_length] at hke
              injection hke with hke
              subst hke
              have hdel : deltasFor (mergeStep fb M d) M.length (done ++ [d]) = [d] := by
                unfold deltasFor
                rw [List.filter_append]
                have h1 : List.filter
                    (fun d' => decide (findIndexById (mergeStep fb M d) d'.id = some M.length))
                    done = [] := by
                  rw [List.filter_eq_nil]
                  intro x hx
                  have hxp := hpres x hx
                  cases hf : findIndexById M x.id with
                  | none => rw [hf] at hxp; simp at hxp
                  | some kx =>
                    obtain ⟨e', he', _⟩ := findIndexById_some hf
                    have hbound := list_get?_some_lt he'
                    simp [hfib, hf]
                    omega
                have h2 : List.filter
                    (fun d' => decide (findIndexById (mergeStep fb M d) d'.id = some M.length))
                    [d] = [d] := by
                  rw [List.filter_cons_of_pos (by simp [hfib, hk0])]
                  rfl
                rw [h1, h2]
                rfl
              rw [hdel]
              exact mergeOne_newEntry_self fb d
            · have hnone : (M ++ [newEntry d fb]).get? k = none := by
                rw [List.get?_eq_none]
                simp only [List.length_append, List.length_singleton]
                omega
              rw [hnone] at hke
              exact absurd hke (by simp)
    obtain ⟨h1, h2, h3⟩ := ih (done ++ [d]) (mergeStep fb M d) hmain.1 hB' hmain.2.1 hmain.2.2
    simp only [List.foldl_cons]
    refine ⟨h1, ?_, ?_⟩
    · intro d' hd'
      apply h2
      rw [List.append_assoc]
      exact hd'
    · intro k e hke
      have h4 := h3 k e hke
      rw [List.append_assoc] at h4
      exact h4

/-- C3 (counterexample): merging the same delta batch twice is not the same
as merging it once — with a ledger entry carrying neither purpose nor
originalPurpose, the second merge re-derives originalPurpose from the
purpose installed by the first merge. -/
theorem c3_merge_not_idempotent_counterexample :
    mergeSqlExecutions (mergeSqlExecutions [c3ex] [c3d] none) [c3d] none ≠
      mergeSqlExecutions [c3ex] [c3d] none := by
  intro h
  exact absurd (congrArg (List.map (fun e => e.originalPurpose)) h) (by decide)

/-- C3 (amended): the merge is idempotent whenever every ledger entry has a
truthy originalPurpose-or-purpose and every delta has a truthy purpose —
merging a batch a second time leaves the merged ledger unchanged. -/
theorem c3_merge_idempotent_amended (L B : List SqlExecution) (fb : Option String)
    (hL : ∀ e ∈ L, strTruthy (jsOrStr e.originalPurpose e.purpose) = true)
    (hB : ∀ d ∈ B, strTruthy d.purpose = true) :
    mergeSqlExecutions (mergeSqlExecutions L B fb) B fb = mergeSqlExecutions L B fb := by
  obtain ⟨hInv, hpres, hfix⟩ :=
    merge_first_pass fb B [] L hL hB (by intro d hd; cases hd)
      (by intro k e hke; rfl)
  show List.foldl (mergeStep fb) (List.foldl (mergeStep fb) L B) B =
    List.foldl (mergeStep fb) L B
  apply merge_second_pass fb B
  · intro k
    rfl
  · intro d hd
    exact hpres d hd
  · intro k eM eN hM hN
    rw [hM] at hN
    injection hN with hN
    subst hN
    exact hfix k eM hM

/-- C3 witness: the amended idempotence theorem applied at a concrete
ledger and batch satisfying both truthiness hypotheses. -/
theorem c3_merge_idempotent_witness :
    mergeSqlExecutions (mergeSqlExecutions [exQ1] [c3d] none) [c3d] none =
      mergeSqlExecutions [exQ1] [c3d] none :=
  c3_merge_idempotent_amended [exQ1] [c3d] none (by decide) (by decide)
